import Mathlib

/-!
Verification of the NextJS-TUS resumable-upload service.

This file shallowly embeds the server-side upload engine and the
client-side batch selector of the repository:

* `src/lib/upload/utils/tus-file-utils.ts` — `getPartCount`,
  `findOptimalBatch`, `sanitizeFilename`;
* `src/lib/upload/services/tus-file-operations.ts` —
  `normalizeDestinationPath`, `getDestinationDir`, `getFullFilePath`,
  `getUniqueFilename`, `moveFile` and friends, `checkDuplicateFile`;
* `src/lib/upload/utils/tus-filename-utils.ts` — filename and duplicate
  strategies, `getFinalFilename`, `usesOriginalFilename`;
* `src/lib/upload/services/tus-multipart-manager.ts` — the multipart
  assembler;
* `src/app/api/upload/[[...params]]/route.ts` — the POST / PATCH / HEAD
  handlers.

The filesystem is modelled as a finite association from path strings to
file data (raw bytes, or a parsed JSON sidecar).  Exogenous I/O failures
(cross-device renames, failing copies) are supplied by an explicit
environment `FsEnv`, mirroring the `try`/`catch` structure of the source.
JavaScript `NaN` produced by `parseInt` is modelled by `Option Int`
(`none` = `NaN`), and JS string truthiness (`undefined`/`""` falsy) by
helpers `truthy` / `truthyGetD`.
-/

namespace NextTus

/-- Raw file contents: the byte sequence of a file, modelled as a list. -/
abbrev Bytes := List Nat

/-- Decidable equality of `Except`, used to evaluate concrete runs. -/
instance decEqExcept {e a : Type} [DecidableEq e] [DecidableEq a] :
    DecidableEq (Except e a) := fun x y =>
  match x, y with
  | .ok u, .ok v =>
      if h : u = v then .isTrue (congrArg Except.ok h)
      else .isFalse (fun hc => h (Except.ok.inj hc))
  | .error u, .error v =>
      if h : u = v then .isTrue (congrArg Except.error h)
      else .isFalse (fun hc => h (Except.error.inj hc))
  | .ok _, .error _ => .isFalse (fun hc => Except.noConfusion hc)
  | .error _, .ok _ => .isFalse (fun hc => Except.noConfusion hc)

/-- JS truthiness of an optional string (header or metadata field):
`undefined` and the empty string are falsy. -/
def truthy : Option String → Bool
  | none => false
  | some s => s ≠ ""

/-- JS `x || d` on an optional string: the default replaces both
`undefined` and the empty string. -/
def truthyGetD (o : Option String) (d : String) : String :=
  match o with
  | none => d
  | some s => if s = "" then d else s

/-- The characters treated as whitespace by JS `trim` and `parseInt`:
the ASCII members of the ECMAScript WhiteSpace and LineTerminator sets,
plus no-break space (the exotic Unicode members never occur here). -/
def isJsSpace (c : Char) : Bool :=
  c = ' ' || c = '\t' || c = '\n' || c = '\r' || c = '\x0b' || c = '\x0c' || c = ' '

/-- Decimal value of a digit string. -/
def digitsToNat (ds : List Char) : Nat :=
  ds.foldl (fun a c => a * 10 + (c.toNat - '0'.toNat)) 0

/-- JS `parseInt` on base-10 input: skip leading whitespace, optional
sign, then the longest prefix of decimal digits; `none` models `NaN`.
(The hexadecimal `0x` branch of `parseInt` is never exercised by the
protocol values modelled here.) -/
def parseIntJs (s : String) : Option Int :=
  let cs := s.data.dropWhile isJsSpace
  let signRest : Bool × List Char :=
    match cs with
    | '-' :: r => (true, r)
    | '+' :: r => (false, r)
    | r => (false, r)
  let ds := signRest.2.takeWhile (fun c => c.isDigit)
  if ds.isEmpty then none
  else some (if signRest.1 then -(digitsToNat ds : Int) else (digitsToNat ds : Int))

/-- JS `a + k` on a stored number that may be `NaN`. -/
def nanAdd (a : Option Int) (k : Nat) : Option Int :=
  match a with
  | some x => some (x + k)
  | none => none

/-- JS `a >= b`: false whenever either side is `NaN`. -/
def nanGe (a b : Option Int) : Bool :=
  match a, b with
  | some x, some y => y ≤ x
  | _, _ => false

/-- JS strict equality `a === b` on numbers: false whenever either side
is `NaN` (in particular `NaN === NaN` is false). -/
def nanEq (a b : Option Int) : Bool :=
  match a, b with
  | some x, some y => x = y
  | _, _ => false

/-- JS `Number.prototype.toString` on a stored number. -/
def ofsToString (a : Option Int) : String :=
  match a with
  | some x => toString x
  | none => "NaN"

/-- `s.endsWith(c)` for a single-character suffix. -/
def strEndsWithChar (s : String) (c : Char) : Bool :=
  s.data.getLast? = some c

/-- JS `String.prototype.trim`. -/
def jsTrim (s : String) : String :=
  ⟨((s.data.dropWhile isJsSpace).reverse.dropWhile isJsSpace).reverse⟩

/-- `replace(/^\/+|\/+$/g, '')`: remove the maximal leading and trailing
runs of `/`. -/
def stripSlashes (s : String) : String :=
  ⟨((s.data.dropWhile (fun c => c = '/')).reverse.dropWhile (fun c => c = '/')).reverse⟩

/-- `TUS_SERVER_CONFIG.filenameSanitizeRegex = /[^a-zA-Z0-9._-]/g`:
the characters that are kept (everything else is replaced). -/
def allowedChar (c : Char) : Bool :=
  ('a' ≤ c && c ≤ 'z') || ('A' ≤ c && c ≤ 'Z') || ('0' ≤ c && c ≤ '9') ||
  c = '.' || c = '_' || c = '-'

/-- One character of `sanitizeFilename`. -/
def sanChar (c : Char) : Char := if allowedChar c then c else '_'

/-- `sanitizeFilename`: `filename.replace(/[^a-zA-Z0-9._-]/g, "_")`.
(The regex acts per UTF-16 unit; on supplementary-plane characters it
would emit two underscores where this model emits one, which does not
affect any property stated below.) -/
def sanitizeFilename (s : String) : String := ⟨s.data.map sanChar⟩

/-- `normalizeDestinationPath`: falsy input yields `""`; otherwise trim,
strip leading/trailing slashes, and append a trailing slash to a
non-empty result that does not already end in one. -/
def normalizeDestinationPath (destinationPath : String) : String :=
  if destinationPath = "" then ""
  else
    let normalized := stripSlashes (jsTrim destinationPath)
    if normalized ≠ "" ∧ strEndsWithChar normalized '/' = false then normalized ++ "/"
    else normalized

/-- `normalizeDestinationPath` on the optional metadata field
(`undefined` is falsy, like the empty string). -/
def normalizeDestinationPathOpt (destinationPath : Option String) : String :=
  normalizeDestinationPath (destinationPath.getD "")

/-- `path.join` restricted to the shapes used by this service:
concatenation with a single separator.  (Redundant-separator collapsing
never arises because the joined segments are opaque staging ids and
already-normalized directories.) -/
def pathJoin (a b : String) : String :=
  if a = "" then b
  else if b = "" then a
  else if strEndsWithChar a '/' then a ++ b
  else a ++ "/" ++ b

/-- `TUS_SERVER_CONFIG.stagingDir` (default, no env override). -/
def stagingDir : String := "./staging"

/-- `TUS_SERVER_CONFIG.mountPath` (default, no env override). -/
def mountPath : String := "./uploads"

/-- One mebibyte. -/
def MB : Nat := 1024 * 1024

/-- `getPartCount` from `tus-file-utils.ts`.  `Math.ceil` of the exact
division is the usual natural-number ceiling (the double-precision
quotient cannot round across an integer at these magnitudes). -/
def getPartCount (fileSize : Nat) : Nat :=
  if fileSize ≤ 512 * MB then 1
  else if fileSize > 4096 * MB then 8
  else (fileSize + (512 * MB - 1)) / (512 * MB)

/-- `FileWithParts` from `tus-file-utils.ts`. -/
structure FileWithParts where
  id : String
  name : String
  size : Nat
  parts : Nat
deriving DecidableEq

/-- Total stream count of a batch. -/
def sumParts (l : List FileWithParts) : Nat := (l.map (fun f => f.parts)).sum

/-- The recursive core of `findOptimalBatch`.  The source's `backtrack`
updates a mutable best on entry and then loops `i = startIndex …`; here
the entry step (its capacity guard, vacuous at every call site, and its
best update) is inlined into the recursive call, and the loop walks the
remaining suffix `rest` structurally. -/
def btLoop (maxStreams : Nat) (rest : List FileWithParts)
    (currentBatch : List FileWithParts) (currentTotal : Nat)
    (best : List FileWithParts × Nat) : List FileWithParts × Nat :=
  match rest with
  | [] => best
  | f :: rs =>
      if currentTotal + f.parts ≤ maxStreams then
        btLoop maxStreams rs currentBatch currentTotal
          (btLoop maxStreams rs (currentBatch ++ [f]) (currentTotal + f.parts)
            (if best.2 < currentTotal + f.parts then
              (currentBatch ++ [f], currentTotal + f.parts)
            else best))
      else btLoop maxStreams rs currentBatch currentTotal best

/-- `findOptimalBatch` from `tus-file-utils.ts`. -/
def findOptimalBatch (files : List FileWithParts) (maxStreams : Nat) : List FileWithParts :=
  if files.isEmpty then []
  else (btLoop maxStreams files [] 0 ([], 0)).1

/-- The batch-forcing step of `processQueueDynamic` in
`useTusFileUpload.ts`: an empty selection forcibly includes the first
pending file. -/
def selectBatch (files : List FileWithParts) (maxStreams : Nat) : List FileWithParts :=
  let batch := findOptimalBatch files maxStreams
  if batch.isEmpty then
    match files with
    | [] => []
    | f :: _ => [f]
  else batch

/-! ## Data model: metadata, sidecars and the staging/mount filesystem -/

/-- `Partial<UploadMetadata>` from `upload-types.ts`: every field may be
absent (`undefined`). -/
structure PartialUploadMetadata where
  filename : Option String := none
  filetype : Option String := none
  multipartId : Option String := none
  partIndex : Option String := none
  totalParts : Option String := none
  originalFileSize : Option String := none
  withFilename : Option String := none
  onDuplicate : Option String := none
  destinationPath : Option String := none
deriving DecidableEq

/-- `UploadInfo` from `upload-types.ts` (the JSON sidecar contents).
`size` and `offset` are JS numbers that may be `NaN`. -/
structure UploadInfo where
  id : String
  size : Option Int
  offset : Option Int
  metadata : PartialUploadMetadata
  creation_date : String
deriving DecidableEq

/-- Contents of one filesystem entry: a raw payload file, or a JSON
sidecar held in parsed form. -/
inductive FileData
  | bin (bytes : Bytes)
  | meta (info : UploadInfo)
deriving DecidableEq

/-- First-match lookup in an association list. -/
def alookup {κ α : Type} [DecidableEq κ] (l : List (κ × α)) (k : κ) : Option α :=
  match l with
  | [] => none
  | (k', v) :: r => if k' = k then some v else alookup r k

/-- Remove every binding of a key. -/
def aerase {κ α : Type} [DecidableEq κ] (l : List (κ × α)) (k : κ) : List (κ × α) :=
  match l with
  | [] => []
  | (k', v) :: r => if k' = k then aerase r k else (k', v) :: aerase r k

/-- Bind a key to a value, replacing any previous binding. -/
def aset {κ α : Type} [DecidableEq κ] (l : List (κ × α)) (k : κ) (v : α) : List (κ × α) :=
  (k, v) :: aerase l k

/-- The staging and mount directories: a finite association from path
strings to file contents.  Directories are implicit (`ensureDir` and
`mkdirSync` are no-ops of the model). -/
structure FsState where
  entries : List (String × FileData)
deriving DecidableEq

def FsState.read (fs : FsState) (p : String) : Option FileData := alookup fs.entries p

def FsState.write (fs : FsState) (p : String) (d : FileData) : FsState :=
  ⟨aset fs.entries p d⟩

def FsState.erase (fs : FsState) (p : String) : FsState := ⟨aerase fs.entries p⟩

/-- `fs.existsSync`. -/
def FsState.existsPath (fs : FsState) (p : String) : Bool := (fs.read p).isSome

/-- Outcome of one `fs.renameSync` attempt on an existing source. -/
inductive RenameOutcome
  | ok
  | exdev
  | err
deriving DecidableEq

/-- Exogenous I/O behaviour: whether a rename succeeds, fails with
`EXDEV`, or fails otherwise, and whether the copy fallback fails. -/
structure FsEnv where
  renameOutcome : String → String → RenameOutcome
  copyFails : String → String → Bool

/-- An environment in which every rename and copy succeeds. -/
def envAllOk : FsEnv := ⟨fun _ _ => RenameOutcome.ok, fun _ _ => false⟩

/-! ## `tus-file-operations.ts` -/

/-- `moveFileWithFallback`: `renameSync`, falling back to
`copyFileSync` + `unlinkSync` on `EXDEV`; every failure is caught and
reported as `false`.  A missing source makes `renameSync` throw a
non-`EXDEV` error. -/
def moveFileWithFallback (env : FsEnv) (fs : FsState) (src dst : String) :
    Bool × FsState :=
  match fs.read src with
  | none => (false, fs)
  | some d =>
      match env.renameOutcome src dst with
      | .ok => (true, (fs.erase src).write dst d)
      | .err => (false, fs)
      | .exdev =>
          if env.copyFails src dst then (false, fs)
          else (true, (fs.erase src).write dst d)

/-- `handleJsonFile`: move the sidecar next to the destination when
`keepJson`, delete it otherwise; a missing sidecar is fine. -/
def handleJsonFile (env : FsEnv) (fs : FsState) (jsonPath destinationPath : String)
    (keepJson : Bool) : Bool × FsState :=
  if (fs.read jsonPath).isNone then (true, fs)
  else if keepJson then moveFileWithFallback env fs jsonPath (destinationPath ++ ".json")
  else (true, fs.erase jsonPath)

/-- `moveFile` from `tus-file-operations.ts`. -/
def moveFile (env : FsEnv) (fs : FsState) (src dst jsonPath : String)
    (keepJson : Bool) : Bool × FsState :=
  if !(moveFileWithFallback env fs src dst).1 then
    (false, (moveFileWithFallback env fs src dst).2)
  else
    handleJsonFile env (moveFileWithFallback env fs src dst).2 jsonPath dst keepJson

/-- `getDestinationDir`. -/
def getDestinationDir (destinationPath : Option String) : String :=
  pathJoin mountPath (normalizeDestinationPathOpt destinationPath)

/-- `getFullFilePath`. -/
def getFullFilePath (filename : String) (destinationPath : Option String) : String :=
  pathJoin (getDestinationDir destinationPath) filename

/-- `checkDuplicateFile`. -/
def checkDuplicateFile (fs : FsState) (filename : String)
    (destinationPath : Option String) : Bool :=
  fs.existsPath (getFullFilePath filename destinationPath)

/-- `path.extname` on a bare filename: the suffix from the last dot,
empty when there is no dot or the only dot is leading. -/
def extname (s : String) : String :=
  let cs := s.data
  let afterDot := cs.reverse.takeWhile (fun c => c ≠ '.')
  if afterDot.length + 1 ≤ cs.length then
    let dotPos := cs.length - afterDot.length - 1
    if dotPos = 0 then "" else ⟨'.' :: afterDot.reverse⟩
  else ""

/-- The probing loop of `getUniqueFilename`, with enough fuel to pass
every occupied name (the candidates `base(1)ext, base(2)ext, …` are
pairwise distinct, so `entries.length + 1` probes always suffice). -/
def uniqueLoop (fs : FsState) (dir base ext : String) (i : Nat) (candidate : String) :
    Nat → String
  | 0 => candidate
  | fuel + 1 =>
      if fs.existsPath (pathJoin dir candidate) then
        uniqueLoop fs dir base ext (i + 1) (base ++ "(" ++ toString i ++ ")" ++ ext) fuel
      else candidate

/-- `getUniqueFilename`. -/
def getUniqueFilename (fs : FsState) (filename dir : String) : String :=
  let ext := extname filename
  let base : String := ⟨filename.data.take (filename.data.length - ext.data.length)⟩
  uniqueLoop fs dir base ext 1 filename (fs.entries.length + 1)

/-! ## `tus-filename-utils.ts` -/

/-- Dispatch into `duplicateStrategies`: `prevent` is the identity,
`number` probes for a unique name, and an unknown name falls back to
`prevent` (the registry holds exactly these two at startup). -/
def applyDuplicateStrategy (fs : FsState) (strategyName : String)
    (filename directory : String) : String :=
  if strategyName = "number" then getUniqueFilename fs filename directory
  else filename

/-- `getFinalFilename`: dispatch into `filenameStrategies` with fallback
to `default`; the `original` handler sanitizes the metadata filename and
applies the duplicate strategy against the destination directory. -/
def getFinalFilename (fs : FsState) (meta : PartialUploadMetadata)
    (uploadId : String) : String :=
  let strategy := truthyGetD meta.withFilename "default"
  if strategy = "original" then
    if truthy meta.filename = false then uploadId
    else
      let sanitized := sanitizeFilename (meta.filename.getD "")
      let duplicateStrategy := truthyGetD meta.onDuplicate "prevent"
      let destinationDir := getDestinationDir meta.destinationPath
      applyDuplicateStrategy fs duplicateStrategy sanitized destinationDir
  else uploadId

/-- `usesOriginalFilename`. -/
def usesOriginalFilename (meta : PartialUploadMetadata) : Bool :=
  decide (truthyGetD meta.withFilename "default" = "original") && truthy meta.filename

/-! ## `tus-multipart-manager.ts` -/

/-- `MultipartAssembly`.  Part indices are `parseInt` results, so a key
may be `NaN` (`none`); a JS `Map` treats `NaN` as equal to itself, which
the `Option Int` key equality reproduces. -/
structure MultipartAssembly where
  parts : List (Option Int × String)
  totalParts : Option Int
  metadata : PartialUploadMetadata
deriving DecidableEq

/-- The metadata object rebuilt for the assembled file (both in
`updateAssembledMetadata` and in the argument of
`processAssembledFile`). -/
def mkAssembledMetadata (meta : PartialUploadMetadata) : PartialUploadMetadata :=
  { filename := some (truthyGetD meta.filename "")
    filetype := some (truthyGetD meta.filetype "")
    withFilename := some (truthyGetD meta.withFilename "default")
    onDuplicate := some (truthyGetD meta.onDuplicate "prevent")
    destinationPath := meta.destinationPath }

/-- `appendPartToFile`: `readFileSync(partPath)` then
`appendFileSync(baseFilePath, data)` (which creates the base when
absent).  A missing part file makes the read throw, modelled as
`Except.error`.  (Reading a sidecar entry as raw bytes cannot occur in
the executions modelled and is also mapped to an error.) -/
def appendPartToFile (fs : FsState) (baseFilePath partPath : String) :
    Except Unit FsState :=
  match fs.read partPath with
  | some (.bin partData) =>
      let baseData : Bytes :=
        match fs.read baseFilePath with
        | some (.bin b) => b
        | _ => []
      .ok (fs.write baseFilePath (.bin (baseData ++ partData)))
  | _ => .error ()

/-- `cleanupPartFiles`: delete the part payload and then its sidecar
when present (deletion errors are caught and only logged; deleting an
existing entry cannot fail in the model).  The two `existsSync` guards
are written out with the intermediate state inlined. -/
def cleanupPartFiles (fs : FsState) (partId : String) : FsState :=
  if fs.existsPath (pathJoin stagingDir partId) then
    if (fs.erase (pathJoin stagingDir partId)).existsPath
        (pathJoin stagingDir (partId ++ ".json")) then
      (fs.erase (pathJoin stagingDir partId)).erase
        (pathJoin stagingDir (partId ++ ".json"))
    else fs.erase (pathJoin stagingDir partId)
  else
    if fs.existsPath (pathJoin stagingDir (partId ++ ".json")) then
      fs.erase (pathJoin stagingDir (partId ++ ".json"))
    else fs

/-- `updateAssembledMetadata`: overwrite the base sidecar with a
synthesized `UploadInfo` whose `size` and `offset` are
`parseInt(meta.originalFileSize || '0')`, keeping the original
`creation_date`.  A failing read or parse is caught and only logged. -/
def updateAssembledMetadata (fs : FsState) (fileId : String)
    (meta : PartialUploadMetadata) : FsState :=
  match fs.read (pathJoin stagingDir (fileId ++ ".json")) with
  | some (.meta originalJson) =>
      fs.write (pathJoin stagingDir (fileId ++ ".json")) (.meta
        { id := fileId
          size := parseIntJs (truthyGetD meta.originalFileSize "0")
          offset := parseIntJs (truthyGetD meta.originalFileSize "0")
          metadata := mkAssembledMetadata meta
          creation_date := originalJson.creation_date })
  | _ => fs

/-- `processAssembledFile`: compute the final name and move the
assembled base file; the boolean result of `moveFile` is discarded. -/
def processAssembledFile (env : FsEnv) (fs : FsState) (uploadId : String)
    (meta : PartialUploadMetadata) : FsState :=
  (moveFile env fs (pathJoin stagingDir uploadId)
    (getFullFilePath (getFinalFilename fs meta uploadId) meta.destinationPath)
    (pathJoin stagingDir (uploadId ++ ".json"))
    (!usesOriginalFilename meta)).2

/-- The `for (let i = 2; i <= totalParts; i++)` loop of `assembleFile`,
iterating over the explicit index list `[2, …, totalParts]`; the state
at the moment of a throw is retained (already-appended bytes stay on
disk).  A part index absent from the map is the JS `undefined`, turned
into the path segment `"undefined"` by the template string. -/
def assembleSeq (parts : List (Option Int × String)) (baseFilePath : String) :
    List Nat → FsState → Except Unit Unit × FsState
  | [], fs => (.ok (), fs)
  | i :: rest, fs =>
      match appendPartToFile fs baseFilePath
          (pathJoin stagingDir ((alookup parts (some (i : Int))).getD "undefined")) with
      | .error e => (.error e, fs)
      | .ok fs1 =>
          assembleSeq parts baseFilePath rest
            (cleanupPartFiles fs1 ((alookup parts (some (i : Int))).getD "undefined"))

/-- Number of iterations of the assembly loop: indices 2 … totalParts
(none when `totalParts` is `NaN` or below 2). -/
def loopCount (totalParts : Option Int) : Nat :=
  match totalParts with
  | some t => t.toNat - 1
  | none => 0

/-- `assembleFile`: append parts 2 … totalParts to part 1's payload,
rewrite the base sidecar, then move the assembled file to its final
destination. -/
def assembleFile (env : FsEnv) (assembly : MultipartAssembly) (fs : FsState) :
    Except Unit Unit × FsState :=
  match assembleSeq assembly.parts
      (pathJoin stagingDir ((alookup assembly.parts (some 1)).getD "undefined"))
      (List.range' 2 (loopCount assembly.totalParts)) fs with
  | (.error e, fs1) => (.error e, fs1)
  | (.ok _, fs1) =>
      (.ok (), processAssembledFile env
        (updateAssembledMetadata fs1
          ((alookup assembly.parts (some 1)).getD "undefined") assembly.metadata)
        ((alookup assembly.parts (some 1)).getD "undefined")
        (mkAssembledMetadata assembly.metadata))

/-- The test `assembly.parts.size === assembly.totalParts` (false when
`totalParts` is `NaN`). -/
def sizeEqTotal (a : MultipartAssembly) : Bool :=
  match a.totalParts with
  | some t => (a.parts.length : Int) = t
  | none => false

/-- The assembly tracker of `handlePartCompletion` after
`assembly.parts.set(partIndex, uploadId)`: the existing assembly for the
`multipartId` (or a fresh one with the parsed `totalParts`) with the new
part recorded. -/
def recordPart (uploadId : String) (metadata : PartialUploadMetadata)
    (assemblies : List (String × MultipartAssembly)) : MultipartAssembly :=
  match alookup assemblies (metadata.multipartId.getD "") with
  | some a =>
      { a with
        parts := aset a.parts (parseIntJs (metadata.partIndex.getD "")) uploadId }
  | none =>
      { parts := aset [] (parseIntJs (metadata.partIndex.getD "")) uploadId,
        totalParts := parseIntJs (metadata.totalParts.getD ""),
        metadata := metadata }

/-- `handlePartCompletion`: record the part, and when the group is
complete run `assembleFile`, discarding the in-memory assembly exactly
once on both success and failure; a failure is rethrown. -/
def handlePartCompletion (env : FsEnv) (uploadId : String)
    (metadata : PartialUploadMetadata)
    (assemblies : List (String × MultipartAssembly)) (fs : FsState) :
    Except Unit Bool × List (String × MultipartAssembly) × FsState :=
  if sizeEqTotal (recordPart uploadId metadata assemblies) then
    match assembleFile env (recordPart uploadId metadata assemblies) fs with
    | (.ok _, fs1) =>
        (.ok true, aerase (aset assemblies (metadata.multipartId.getD "")
          (recordPart uploadId metadata assemblies))
          (metadata.multipartId.getD ""), fs1)
    | (.error e, fs1) =>
        (.error e, aerase (aset assemblies (metadata.multipartId.getD "")
          (recordPart uploadId metadata assemblies))
          (metadata.multipartId.getD ""), fs1)
  else (.ok false, aset assemblies (metadata.multipartId.getD "")
    (recordPart uploadId metadata assemblies), fs)

/-! ## `route.ts`: the HTTP handlers -/

/-- Response bodies that occur: empty, `{ error: s }`, or
`{ error: { message: s } }`. -/
inductive RespBody
  | empty
  | errorString (s : String)
  | errorMessage (s : String)
deriving DecidableEq

/-- An HTTP response: status, headers in emission order, body. -/
structure HttpResponse where
  status : Nat
  headers : List (String × String)
  body : RespBody
deriving DecidableEq

/-- Value of a response header. -/
def resHeader (r : HttpResponse) (k : String) : Option String := alookup r.headers k

/-- `NextResponse.json({ error: s }, { status })`. -/
def jsonError (status : Nat) (s : String) : HttpResponse := ⟨status, [], .errorString s⟩

/-- The multipart test of `handleUploadComplete`:
`!!(meta.multipartId && meta.partIndex && meta.totalParts)`. -/
def isMultipartMeta (meta : PartialUploadMetadata) : Bool :=
  truthy meta.multipartId && truthy meta.partIndex && truthy meta.totalParts

/-- In-memory server state: the process-local assembly map plus the
filesystem. -/
structure ServerState where
  assemblies : List (String × MultipartAssembly)
  fs : FsState
deriving DecidableEq

/-- `handleUploadComplete` from `route.ts`: delegate multipart parts to
the manager; finalize a solo upload by moving it, discarding the
`moveFile` result, and return `true` unconditionally. -/
def handleUploadComplete (env : FsEnv) (uploadId : String) (uploadInfo : UploadInfo)
    (assemblies : List (String × MultipartAssembly)) (fs : FsState) :
    Except Unit Bool × List (String × MultipartAssembly) × FsState :=
  let meta := uploadInfo.metadata
  if isMultipartMeta meta = true ∧ meta.totalParts ≠ some "1" then
    handlePartCompletion env uploadId meta assemblies fs
  else
    let finalFilename := getFinalFilename fs meta uploadId
    let stagingPath := pathJoin stagingDir uploadId
    let destinationPath := getFullFilePath finalFilename meta.destinationPath
    let jsonPath := pathJoin stagingDir (uploadId ++ ".json")
    let fs1 := (moveFile env fs stagingPath destinationPath jsonPath
      (!usesOriginalFilename meta)).2
    (.ok true, assemblies, fs1)

/-- `POST` from `route.ts`.  The metadata is taken already decoded from
the `Upload-Metadata` header (`parseMetadata` only base64-decodes the
pairs); the fresh uuid, the creation date, and the forwarded
protocol/host are inputs of the model. -/
def POST (uploadLength : Option String) (metadata : PartialUploadMetadata)
    (uploadId : String) (creationDate : String) (proto host : String)
    (fs : FsState) : HttpResponse × FsState :=
  if truthy uploadLength = false then
    (jsonError 400 "Missing Upload-Length header", fs)
  else if metadata.withFilename = some "original" ∧ truthy metadata.filename = true ∧
      metadata.onDuplicate = some "prevent" ∧
      checkDuplicateFile fs (sanitizeFilename (metadata.filename.getD ""))
        metadata.destinationPath = true then
    (⟨409, [], .errorMessage ("File \"" ++ metadata.filename.getD "" ++
      "\" already exists and duplicates are not allowed")⟩, fs)
  else
    let filePath := pathJoin stagingDir uploadId
    let metadataPath := pathJoin stagingDir (uploadId ++ ".json")
    let fs1 := fs.write filePath (.bin [])
    let uploadInfo : UploadInfo :=
      { id := uploadId
        size := parseIntJs (uploadLength.getD "")
        offset := some 0
        metadata := metadata
        creation_date := creationDate }
    let fs2 := fs1.write metadataPath (.meta uploadInfo)
    let location := proto ++ "://" ++ host ++ "/api/upload/" ++ uploadId
    (⟨201, [("Location", location), ("Tus-Resumable", "1.0.0"), ("Upload-Offset", "0")],
      .empty⟩, fs2)

/-- The required PATCH content type. -/
def octetStreamCT : String := "application/offset+octet-stream"

/-- `PATCH` from `route.ts`.  The catch-all wrapper surfaces a thrown
assembly error as a 500 with the filesystem mutations retained. -/
def PATCH (env : FsEnv) (uploadId : Option String)
    (uploadOffsetHdr contentType : Option String) (body : Bytes)
    (st : ServerState) : HttpResponse × ServerState :=
  match uploadId with
  | none => (jsonError 400 "Missing upload ID", st)
  | some uid =>
    if truthy uploadOffsetHdr = false then
      (jsonError 400 "Missing Upload-Offset header", st)
    else if contentType ≠ some octetStreamCT then
      (jsonError 400 "Invalid Content-Type", st)
    else
      let filePath := pathJoin stagingDir uid
      let metadataPath := pathJoin stagingDir (uid ++ ".json")
      match st.fs.read metadataPath with
      | none => (jsonError 404 "Upload not found", st)
      | some (.bin _) => (jsonError 500 "Internal server error", st)
      | some (.meta uploadInfo) =>
        let offset := parseIntJs (uploadOffsetHdr.getD "")
        if nanEq offset uploadInfo.offset = false then
          (jsonError 409 "Offset mismatch", st)
        else
          let baseData : Bytes :=
            match st.fs.read filePath with
            | some (.bin b) => b
            | _ => []
          let fs1 := st.fs.write filePath (.bin (baseData ++ body))
          let uploadInfo1 :=
            { uploadInfo with offset := nanAdd uploadInfo.offset body.length }
          let fs2 := fs1.write metadataPath (.meta uploadInfo1)
          if nanGe uploadInfo1.offset uploadInfo1.size then
            match handleUploadComplete env uid uploadInfo1 st.assemblies fs2 with
            | (.ok isFileComplete, asm1, fs3) =>
                (⟨204,
                  [("Tus-Resumable", "1.0.0"),
                   ("Upload-Offset", ofsToString uploadInfo1.offset)] ++
                  (if isFileComplete then [("Upload-Complete", "true")] else []),
                  .empty⟩, ⟨asm1, fs3⟩)
            | (.error _, asm1, fs3) =>
                (jsonError 500 "Internal server error", ⟨asm1, fs3⟩)
          else
            (⟨204,
              [("Tus-Resumable", "1.0.0"),
               ("Upload-Offset", ofsToString uploadInfo1.offset)],
              .empty⟩, ⟨st.assemblies, fs2⟩)

/-- `HEAD` from `route.ts`. -/
def HEAD (uploadId : Option String) (fs : FsState) : HttpResponse :=
  match uploadId with
  | none => ⟨400, [], .empty⟩
  | some uid =>
    let metadataPath := pathJoin stagingDir (uid ++ ".json")
    match fs.read metadataPath with
    | none => ⟨404, [], .empty⟩
    | some (.bin _) => ⟨500, [], .empty⟩
    | some (.meta uploadInfo) =>
      ⟨200,
        [("Tus-Resumable", "1.0.0"),
         ("Upload-Offset", ofsToString uploadInfo.offset),
         ("Upload-Length", ofsToString uploadInfo.size),
         ("Cache-Control", "no-store")],
        .empty⟩

/-! ## Helper lemmas -/

theorem dropWhile_head_false {p : Char → Bool} :
    ∀ (l : List Char) (a : Char), (l.dropWhile p).head? = some a → p a = false := by
  intro l
  induction l with
  | nil => intro a h; simp [List.dropWhile] at h
  | cons c r ih =>
      intro a h
      rw [List.dropWhile_cons] at h
      by_cases hc : p c
      · simp [hc] at h; exact ih a h
      · simp [hc] at h
        simp [← h]
        exact Bool.not_eq_true _ |>.mp hc

theorem dropWhile_of_forall_false {p : Char → Bool} (l : List Char)
    (h : ∀ a ∈ l, p a = false) : l.dropWhile p = l := by
  cases l with
  | nil => rfl
  | cons c r => rw [List.dropWhile_cons, h c (by simp)]; simp

/-- The list-level core of `stripSlashes` / `jsTrim`: drop a matching
prefix and a matching suffix. -/
def dropEnds (p : Char → Bool) (l : List Char) : List Char :=
  ((l.dropWhile p).reverse.dropWhile p).reverse

theorem stripSlashes_data (s : String) :
    stripSlashes s = ⟨dropEnds (fun c => decide (c = '/')) s.data⟩ := rfl

theorem jsTrim_data (s : String) : jsTrim s = ⟨dropEnds isJsSpace s.data⟩ := rfl

theorem dropEnds_getLast?_false {p : Char → Bool} (l : List Char) (a : Char)
    (h : (dropEnds p l).getLast? = some a) : p a = false := by
  rw [dropEnds, List.getLast?_reverse] at h
  exact dropWhile_head_false _ a h

theorem dropEnds_head?_false {p : Char → Bool} (l : List Char) (a : Char)
    (h : (dropEnds p l).head? = some a) : p a = false := by
  rw [dropEnds, List.head?_reverse] at h
  rcases List.dropWhile_suffix (l := (l.dropWhile p).reverse) p with ⟨t, ht⟩
  have h2 : ((l.dropWhile p).reverse).getLast? = some a := by
    rw [← ht, List.getLast?_append, h]; rfl
  rw [List.getLast?_reverse] at h2
  exact dropWhile_head_false _ a h2

theorem dropEnds_subset {p : Char → Bool} (l : List Char) :
    dropEnds p l ⊆ l := by
  intro a ha
  rw [dropEnds, List.mem_reverse] at ha
  have h1 : a ∈ (l.dropWhile p).reverse := (List.dropWhile_sublist p).subset ha
  rw [List.mem_reverse] at h1
  exact (List.dropWhile_sublist p).subset h1

theorem dropEnds_of_forall_false {p : Char → Bool} (l : List Char)
    (h : ∀ a ∈ l, p a = false) : dropEnds p l = l := by
  rw [dropEnds, dropWhile_of_forall_false l h,
    dropWhile_of_forall_false l.reverse (fun a ha => h a (List.mem_reverse.mp ha)),
    List.reverse_reverse]

theorem dropEnds_of_clean {p : Char → Bool} (core : List Char)
    (hh : ∀ a, core.head? = some a → p a = false)
    (hl : ∀ a, core.getLast? = some a → p a = false)
    (hp : p '/' = true) :
    dropEnds p (core ++ ['/']) = core := by
  rcases core with _ | ⟨c, r⟩
  · simp [dropEnds, List.dropWhile, hp]
  · have hc : p c = false := hh c rfl
    have h1 : ((c :: r) ++ ['/']).dropWhile p = (c :: r) ++ ['/'] := by
      rw [List.cons_append, List.dropWhile_cons, hc]; simp
    have hx : ((c :: r).reverse).dropWhile p = (c :: r).reverse := by
      rcases hX : (c :: r).reverse with _ | ⟨b, m⟩
      · exact absurd hX (by simp)
      · have hb : p b = false := by
          apply hl b
          rw [← List.head?_reverse, hX]; rfl
        rw [List.dropWhile_cons, hb]; simp
    rw [dropEnds, h1, List.reverse_append]
    simp only [List.reverse_cons, List.reverse_nil, List.nil_append, List.singleton_append]
    rw [List.dropWhile_cons, hp]
    simp only [if_true]
    rw [show r.reverse ++ [c] = (c :: r).reverse from (List.reverse_cons c r).symm,
      hx, List.reverse_reverse]

theorem sanChar_idem (c : Char) : sanChar (sanChar c) = sanChar c := by
  unfold sanChar
  by_cases h : allowedChar c
  · simp [h]
  · simp [h, ite_self]

theorem sanitizeFilename_idem (s : String) :
    sanitizeFilename (sanitizeFilename s) = sanitizeFilename s := by
  apply congrArg String.mk
  show (s.data.map sanChar).map sanChar = s.data.map sanChar
  rw [List.map_map]
  exact List.map_congr_left fun a _ => by
    show sanChar (sanChar a) = sanChar a
    exact sanChar_idem a

theorem strEndsWithChar_mk_slash (core : List Char)
    (h : ∀ a, core.getLast? = some a → (decide (a = '/') : Bool) = false) :
    strEndsWithChar ⟨core⟩ '/' = false := by
  unfold strEndsWithChar
  rcases hg : core.getLast? with _ | a
  · simp
  · have ha := h a hg
    simp only [decide_eq_false_iff_not] at ha
    simp [hg, ha]

/-- The slash predicate of `stripSlashes`, as elaborated. -/
def slashP : Char → Bool := fun c => decide (c = '/')

/-- The trimmed, slash-stripped core of a destination path. -/
def normCore (p : String) : List Char := dropEnds slashP (dropEnds isJsSpace p.data)

theorem normCore_getLast?_false (p : String) (a : Char)
    (h : (normCore p).getLast? = some a) : slashP a = false :=
  dropEnds_getLast?_false _ a h

theorem normalize_of_core_ne (p : String) (hp : p ≠ "") (hcore : normCore p ≠ []) :
    normalizeDestinationPath p = ⟨normCore p ++ ['/']⟩ := by
  have hmk : stripSlashes (jsTrim p) = ⟨normCore p⟩ := rfl
  have hend : strEndsWithChar (⟨normCore p⟩ : String) '/' = false :=
    strEndsWithChar_mk_slash _ (fun a ha => normCore_getLast?_false p a ha)
  have hne : (⟨normCore p⟩ : String) ≠ "" := by
    intro hc
    exact hcore (congrArg String.data hc)
  unfold normalizeDestinationPath
  rw [if_neg hp, hmk, if_pos ⟨hne, hend⟩]
  rfl

theorem normalize_of_core_nil (p : String) (hp : p ≠ "") (hcore : normCore p = []) :
    normalizeDestinationPath p = "" := by
  have hmk : stripSlashes (jsTrim p) = ⟨normCore p⟩ := rfl
  unfold normalizeDestinationPath
  rw [if_neg hp, hmk, hcore, if_neg (by intro hcon; exact hcon.1 rfl)]

/-- C7: `getPartCount` is 1 up to 512 MiB, 8 strictly above 4096 MiB,
and the ceiling of `size / 512 MiB` in between; in particular
512 MiB ↦ 1, 512 MiB + 1 ↦ 2, 4096 MiB ↦ 8 and 4096 MiB + 1 ↦ 8. -/
theorem C7_getPartCount_thresholds :
    (∀ size : Nat, size ≤ 512 * MB → getPartCount size = 1) ∧
    (∀ size : Nat, 4096 * MB < size → getPartCount size = 8) ∧
    (∀ size : Nat, 512 * MB < size → size ≤ 4096 * MB →
      512 * MB * (getPartCount size - 1) < size ∧ size ≤ 512 * MB * getPartCount size) ∧
    getPartCount (512 * MB) = 1 ∧ getPartCount (512 * MB + 1) = 2 ∧
    getPartCount (4096 * MB) = 8 ∧ getPartCount (4096 * MB + 1) = 8 := by
  have hMB : MB = 1048576 := rfl
  refine ⟨?_, ?_, ?_, ?_, ?_, ?_, ?_⟩
  · intro size h
    unfold getPartCount
    rw [if_pos h]
  · intro size h
    unfold getPartCount
    rw [if_neg (by omega), if_pos h]
  · intro size h1 h2
    unfold getPartCount
    rw [if_neg (by omega), if_neg (by omega)]
    have hdm := Nat.div_add_mod (size + (512 * MB - 1)) (512 * MB)
    have hlt : (size + (512 * MB - 1)) % (512 * MB) < 512 * MB :=
      Nat.mod_lt _ (by rw [hMB]; omega)
    have hq1 : 1 ≤ (size + (512 * MB - 1)) / (512 * MB) := by
      rw [Nat.le_div_iff_mul_le (by rw [hMB]; omega)]
      rw [hMB] at *; omega
    rw [hMB] at *
    omega
  · decide
  · decide
  · decide
  · decide

/-- C7 witness: the three conditional clauses instantiated at 100 bytes,
at 5000 MiB, and at 1000 MiB. -/
theorem C7_witness :
    getPartCount 100 = 1 ∧ getPartCount (5000 * MB) = 8 ∧
    (512 * MB * (getPartCount (1000 * MB) - 1) < 1000 * MB ∧
      1000 * MB ≤ 512 * MB * getPartCount (1000 * MB)) :=
  ⟨C7_getPartCount_thresholds.1 100 (by decide),
   C7_getPartCount_thresholds.2.1 (5000 * MB) (by decide),
   C7_getPartCount_thresholds.2.2.1 (1000 * MB) (by decide) (by decide)⟩

/-- C10 counterexample: `normalize` is not idempotent.  On `"/ a"` the
first pass strips the leading slash and yields `" a/"`, whose leading
space the second pass's `trim` then removes, yielding `"a/"`. -/
theorem C10_counterexample :
    ¬ (normalizeDestinationPath (normalizeDestinationPath "/ a") =
        normalizeDestinationPath "/ a") := by decide

/-- C10 (amended): `sanitize` is idempotent; `normalize` maps the empty
path to itself and every non-empty output ends in a separator; but
`normalize ∘ normalize = normalize` only holds on inputs free of
whitespace characters — stripping slashes can expose whitespace that a
second `trim` removes, so idempotence fails in general. -/
theorem C10_sanitize_idem_normalize_amended :
    (∀ s : String, sanitizeFilename (sanitizeFilename s) = sanitizeFilename s) ∧
    normalizeDestinationPath "" = "" ∧
    (∀ p : String, normalizeDestinationPath p ≠ "" →
      strEndsWithChar (normalizeDestinationPath p) '/' = true) ∧
    (∀ p : String, (∀ c ∈ p.data, isJsSpace c = false) →
      normalizeDestinationPath (normalizeDestinationPath p) = normalizeDestinationPath p) := by
  refine ⟨sanitizeFilename_idem, rfl, ?_, ?_⟩
  · intro p hne
    by_cases hp : p = ""
    · rw [hp] at hne; exact absurd rfl hne
    by_cases hcore : normCore p = []
    · exact absurd (normalize_of_core_nil p hp hcore) hne
    · rw [normalize_of_core_ne p hp hcore]
      unfold strEndsWithChar
      simp [List.getLast?_concat]
  · intro p hws
    by_cases hp : p = ""
    · rw [hp]; rfl
    by_cases hcore : normCore p = []
    · rw [normalize_of_core_nil p hp hcore]; rfl
    · rw [normalize_of_core_ne p hp hcore]
      set q : String := ⟨normCore p ++ ['/']⟩ with hq
      have hqdata : q.data = normCore p ++ ['/'] := rfl
      have hqne : q ≠ "" := by
        intro hc
        have := congrArg String.data hc
        rw [hqdata] at this
        exact absurd this (by simp)
      have hqmem : ∀ c ∈ q.data, isJsSpace c = false := by
        intro c hc
        rw [hqdata] at hc
        rcases List.mem_append.mp hc with h | h
        · exact hws c (dropEnds_subset _ (dropEnds_subset _ h))
        · simp at h
          rw [h]; decide
      have htrim : dropEnds isJsSpace q.data = q.data :=
        dropEnds_of_forall_false _ hqmem
      have hstrip : normCore q = normCore p := by
        unfold normCore
        rw [htrim, hqdata]
        exact dropEnds_of_clean (normCore p)
          (fun a ha => dropEnds_head?_false _ a ha)
          (fun a ha => dropEnds_getLast?_false _ a ha)
          (by decide)
      rw [normalize_of_core_ne q hqne (by rw [hstrip]; exact hcore), hstrip]

/-- C10 witness: the amended idempotence clauses at the whitespace-free
path `"a/b"` and the trailing-separator clause at `"x"`. -/
theorem C10_witness :
    normalizeDestinationPath (normalizeDestinationPath "a/b") =
      normalizeDestinationPath "a/b" ∧
    strEndsWithChar (normalizeDestinationPath "x") '/' = true :=
  ⟨C10_sanitize_idem_normalize_amended.2.2.2 "a/b" (by decide),
   C10_sanitize_idem_normalize_amended.2.2.1 "x" (by decide)⟩

/-! ## C8: knapsack batch selection -/

theorem sumParts_append (a b : List FileWithParts) :
    sumParts (a ++ b) = sumParts a + sumParts b := by
  simp [sumParts]

theorem sumParts_cons (f : FileWithParts) (l : List FileWithParts) :
    sumParts (f :: l) = f.parts + sumParts l := by
  simp [sumParts]

theorem btLoop_best_le (cap : Nat) :
    ∀ (rest cb : List FileWithParts) (ct : Nat) (best : List FileWithParts × Nat),
      best.2 ≤ (btLoop cap rest cb ct best).2 := by
  intro rest
  induction rest with
  | nil => intro _ _ _; exact Nat.le_refl _
  | cons f rs ih =>
      intro cb ct best
      simp only [btLoop]
      by_cases h : ct + f.parts ≤ cap
      · rw [if_pos h]
        refine Nat.le_trans ?_ (ih cb ct _)
        refine Nat.le_trans ?_ (ih (cb ++ [f]) (ct + f.parts) _)
        by_cases hb : best.2 < ct + f.parts
        · rw [if_pos hb]; exact Nat.le_of_lt hb
        · rw [if_neg hb]
      · rw [if_neg h]; exact ih cb ct best

theorem btLoop_le_cap (cap : Nat) :
    ∀ (rest cb : List FileWithParts) (ct : Nat) (best : List FileWithParts × Nat),
      best.2 ≤ cap → (btLoop cap rest cb ct best).2 ≤ cap := by
  intro rest
  induction rest with
  | nil => intro _ _ _ h; exact h
  | cons f rs ih =>
      intro cb ct best hb
      simp only [btLoop]
      by_cases h : ct + f.parts ≤ cap
      · rw [if_pos h]
        apply ih
        apply ih
        by_cases hlt : best.2 < ct + f.parts
        · rw [if_pos hlt]; exact h
        · rw [if_neg hlt]; exact hb
      · rw [if_neg h]; exact ih _ _ _ hb

theorem btLoop_sound (cap : Nat) (files : List FileWithParts) :
    ∀ (rest cb : List FileWithParts) (ct : Nat) (best : List FileWithParts × Nat),
      (cb ++ rest).Sublist files → sumParts cb = ct →
      sumParts best.1 = best.2 → best.1.Sublist files →
      sumParts (btLoop cap rest cb ct best).1 = (btLoop cap rest cb ct best).2 ∧
        (btLoop cap rest cb ct best).1.Sublist files := by
  intro rest
  induction rest with
  | nil => intro cb ct best _ _ h1 h2; exact ⟨h1, h2⟩
  | cons f rs ih =>
      intro cb ct best hsub hct h1 h2
      have hsub2 : ((cb ++ [f]) ++ rs).Sublist files := by
        rw [List.append_assoc]
        exact hsub
      have hsub1 : (cb ++ rs).Sublist files :=
        List.Sublist.trans
          (List.Sublist.append_left (List.sublist_cons_self f rs) cb) hsub
      have hcbf : (cb ++ [f]).Sublist files :=
        List.Sublist.trans (List.sublist_append_left (cb ++ [f]) rs) hsub2
      simp only [btLoop]
      by_cases h : ct + f.parts ≤ cap
      · rw [if_pos h]
        have hupd1 :
            sumParts (if best.2 < ct + f.parts then (cb ++ [f], ct + f.parts)
              else best).1 =
            (if best.2 < ct + f.parts then (cb ++ [f], ct + f.parts) else best).2 := by
          by_cases hlt : best.2 < ct + f.parts
          · rw [if_pos hlt]
            show sumParts (cb ++ [f]) = ct + f.parts
            rw [sumParts_append, hct]
            simp [sumParts]
          · rw [if_neg hlt]; exact h1
        have hupd2 :
            (if best.2 < ct + f.parts then (cb ++ [f], ct + f.parts)
              else best).1.Sublist files := by
          by_cases hlt : best.2 < ct + f.parts
          · rw [if_pos hlt]; exact hcbf
          · rw [if_neg hlt]; exact h2
        have hin := ih (cb ++ [f]) (ct + f.parts) _ hsub2
          (by rw [sumParts_append, hct]; simp [sumParts]) hupd1 hupd2
        exact ih cb ct _ hsub1 hct hin.1 hin.2
      · rw [if_neg h]
        exact ih cb ct best hsub1 hct h1 h2

theorem btLoop_optimal (cap : Nat) :
    ∀ (rest S cb : List FileWithParts) (ct : Nat) (best : List FileWithParts × Nat),
      S.Sublist rest → ct ≤ best.2 → ct + sumParts S ≤ cap →
      ct + sumParts S ≤ (btLoop cap rest cb ct best).2 := by
  intro rest
  induction rest with
  | nil =>
      intro S cb ct best hS hct _
      rw [List.sublist_nil.mp hS]
      show ct + sumParts [] ≤ best.2
      simpa [sumParts] using hct
  | cons f rs ih =>
      intro S cb ct best hS hct hcap
      simp only [btLoop]
      cases hS with
      | cons _ hS' =>
          by_cases h : ct + f.parts ≤ cap
          · rw [if_pos h]
            apply ih S cb ct _ hS' ?_ hcap
            calc ct ≤ best.2 := hct
              _ ≤ _ := by
                  refine Nat.le_trans ?_
                    (btLoop_best_le cap rs (cb ++ [f]) (ct + f.parts) _)
                  by_cases hlt : best.2 < ct + f.parts
                  · rw [if_pos hlt]; exact Nat.le_of_lt hlt
                  · rw [if_neg hlt]
          · rw [if_neg h]
            exact ih S cb ct best hS' hct hcap
      | cons₂ _ hS' =>
          rename_i S'
          have hsum : sumParts (f :: S') = f.parts + sumParts S' := sumParts_cons f S'
          have hfit : ct + f.parts ≤ cap := by
            rw [hsum] at hcap; omega
          rw [if_pos hfit]
          have hentry : ct + f.parts ≤
              (if best.2 < ct + f.parts then (cb ++ [f], ct + f.parts) else best).2 := by
            by_cases hlt : best.2 < ct + f.parts
            · rw [if_pos hlt]
            · rw [if_neg hlt]; omega
          have hinner : (ct + f.parts) + sumParts S' ≤
              (btLoop cap rs (cb ++ [f]) (ct + f.parts)
                (if best.2 < ct + f.parts then (cb ++ [f], ct + f.parts)
                  else best)).2 := by
            apply ih S' (cb ++ [f]) (ct + f.parts) _ hS' hentry
            rw [hsum] at hcap; omega
          calc ct + sumParts (f :: S') = (ct + f.parts) + sumParts S' := by
                rw [hsum]; omega
            _ ≤ _ := hinner
            _ ≤ _ := btLoop_best_le cap rs cb ct _

/-- C8: the batch chosen by `findOptimalBatch` is a subset of the input
with total part count within `maxStreamCount`; no superset of it that is
still a subset of the input and fits the capacity has a strictly larger
total; and when the selection is empty, the scheduler forcibly selects
the first pending file — which, whenever every pending file has a
positive part count, necessarily exceeds the capacity — so a non-empty
queue always yields a non-empty batch. -/
theorem C8_knapsack_batch (files : List FileWithParts) (maxStreamCount : Nat) :
    sumParts (findOptimalBatch files maxStreamCount) ≤ maxStreamCount ∧
    (findOptimalBatch files maxStreamCount).Sublist files ∧
    (∀ B' : List FileWithParts, B'.Sublist files →
      (findOptimalBatch files maxStreamCount).Sublist B' →
      sumParts B' ≤ maxStreamCount →
      sumParts B' ≤ sumParts (findOptimalBatch files maxStreamCount)) ∧
    (∀ f fs, files = f :: fs → findOptimalBatch files maxStreamCount = [] →
      selectBatch files maxStreamCount = [f]) ∧
    (findOptimalBatch files maxStreamCount = [] →
      ∀ f ∈ files, 0 < f.parts → maxStreamCount < f.parts) ∧
    (files ≠ [] → selectBatch files maxStreamCount ≠ []) := by
  have hforce : ∀ f fs, files = f :: fs → findOptimalBatch files maxStreamCount = [] →
      selectBatch files maxStreamCount = [f] := by
    intro f fs hf hempty
    unfold selectBatch
    rw [hempty, hf]
    rfl
  by_cases hnil : files = []
  · subst hnil
    refine ⟨?_, ?_, ?_, ?_, ?_, ?_⟩
    · show sumParts [] ≤ maxStreamCount
      simp [sumParts]
    · exact List.Sublist.refl _
    · intro B' hB' _ _
      rw [List.sublist_nil.mp hB']
      exact Nat.le_refl _
    · exact hforce
    · intro _ f hf
      exact absurd hf (List.not_mem_nil f)
    · intro h; exact absurd rfl h
  · have hfob : findOptimalBatch files maxStreamCount =
        (btLoop maxStreamCount files [] 0 ([], 0)).1 := by
      unfold findOptimalBatch
      rw [if_neg (by simp [hnil])]
    have hsound := btLoop_sound maxStreamCount files files [] 0 ([], 0)
      (by simp) (by simp [sumParts])
      (by simp [sumParts]) (List.nil_sublist files)
    have hcap := btLoop_le_cap maxStreamCount files [] 0 ([], 0) (Nat.zero_le _)
    have hopt : ∀ S : List FileWithParts, S.Sublist files →
        sumParts S ≤ maxStreamCount →
        sumParts S ≤ (btLoop maxStreamCount files [] 0 ([], 0)).2 := by
      intro S hS hle
      have := btLoop_optimal maxStreamCount files S [] 0 ([], 0) hS
        (Nat.le_refl 0) (by simpa using hle)
      simpa using this
    refine ⟨?_, ?_, ?_, hforce, ?_, ?_⟩
    · rw [hfob, hsound.1]; exact hcap
    · rw [hfob]; exact hsound.2
    · intro B' hB' _ hle
      rw [hfob, hsound.1]
      exact hopt B' hB' hle
    · intro hempty f hf hpos
      by_contra hle
      push_neg at hle
      have h1 : sumParts [f] ≤ maxStreamCount := by
        simpa [sumParts] using hle
      have h2 := hopt [f] (List.singleton_sublist.mpr hf) h1
      rw [← hsound.1, ← hfob, hempty] at h2
      simp [sumParts] at h2
      omega
    · intro hne
      rcases files with _ | ⟨f, fs⟩
      · exact absurd rfl hne
      · unfold selectBatch
        by_cases hempty : findOptimalBatch (f :: fs) maxStreamCount = []
        · rw [hempty]
          intro hcon
          simp at hcon
        · intro hcon
          rcases hb : findOptimalBatch (f :: fs) maxStreamCount with _ | ⟨g, gs⟩
          · exact hempty hb
          · rw [hb] at hcon
            simp at hcon

/-- C8 witness: a single 16-part file against a capacity of 8 streams —
the knapsack selection is empty, so the scheduler forces the first file
into the batch although its part count exceeds the capacity. -/
theorem C8_witness :
    selectBatch [⟨"a", "a", 5000 * MB, 16⟩] 8 = [⟨"a", "a", 5000 * MB, 16⟩] ∧
    8 < (16 : Nat) ∧ selectBatch [⟨"a", "a", 5000 * MB, 16⟩] 8 ≠ [] := by
  have h := C8_knapsack_batch [⟨"a", "a", 5000 * MB, 16⟩] 8
  refine ⟨h.2.2.2.1 ⟨"a", "a", 5000 * MB, 16⟩ [] rfl (by decide), ?_, ?_⟩
  · have h2 := h.2.2.2.2.1 (by decide) ⟨"a", "a", 5000 * MB, 16⟩ (by simp) (by decide)
    exact h2
  · exact h.2.2.2.2.2 (by simp)

/-! ## PATCH unfolding helpers -/

/-- The filesystem after the append and sidecar rewrite of an accepted
PATCH, before any completion handling. -/
def acceptedFs (uid : String) (body : Bytes) (fs : FsState) (info : UploadInfo) :
    FsState :=
  let filePath := pathJoin stagingDir uid
  let metadataPath := pathJoin stagingDir (uid ++ ".json")
  let baseData : Bytes :=
    match fs.read filePath with
    | some (.bin b) => b
    | _ => []
  (fs.write filePath (.bin (baseData ++ body))).write metadataPath
    (.meta { info with offset := nanAdd info.offset body.length })

theorem truthy_some {h : String} (hne : h ≠ "") : truthy (some h) = true := by
  simp [truthy, hne]

theorem PATCH_accepted_eq (env : FsEnv) (uid h : String) (body : Bytes)
    (st : ServerState) (info : UploadInfo)
    (hne : h ≠ "")
    (hmeta : st.fs.read (pathJoin stagingDir (uid ++ ".json")) = some (.meta info))
    (heq : nanEq (parseIntJs h) info.offset = true) :
    PATCH env (some uid) (some h) (some octetStreamCT) body st =
      (let info1 : UploadInfo := { info with offset := nanAdd info.offset body.length }
       let fs2 := acceptedFs uid body st.fs info
       if nanGe info1.offset info1.size then
         match handleUploadComplete env uid info1 st.assemblies fs2 with
         | (.ok isFileComplete, asm1, fs3) =>
             (⟨204,
               [("Tus-Resumable", "1.0.0"),
                ("Upload-Offset", ofsToString info1.offset)] ++
               (if isFileComplete then [("Upload-Complete", "true")] else []),
               .empty⟩, ⟨asm1, fs3⟩)
         | (.error _, asm1, fs3) =>
             (jsonError 500 "Internal server error", ⟨asm1, fs3⟩)
       else
         (⟨204,
           [("Tus-Resumable", "1.0.0"),
            ("Upload-Offset", ofsToString info1.offset)],
           .empty⟩, ⟨st.assemblies, fs2⟩)) := by
  unfold PATCH
  simp only [truthy_some hne, Bool.true_eq_false, if_false, ne_eq,
    not_true_eq_false, Bool.false_eq_true, hmeta, Option.getD_some, heq]
  rfl

theorem handleUploadComplete_solo (env : FsEnv) (uploadId : String)
    (info : UploadInfo) (asm : List (String × MultipartAssembly)) (fs : FsState)
    (hsolo : ¬ (isMultipartMeta info.metadata = true ∧
      info.metadata.totalParts ≠ some "1")) :
    handleUploadComplete env uploadId info asm fs =
      (.ok true, asm,
        (moveFile env fs (pathJoin stagingDir uploadId)
          (getFullFilePath (getFinalFilename fs info.metadata uploadId)
            info.metadata.destinationPath)
          (pathJoin stagingDir (uploadId ++ ".json"))
          (!usesOriginalFilename info.metadata)).2) := by
  unfold handleUploadComplete
  rw [if_neg hsolo]

/-! ## C9: solo finalize ignores move failures -/

/-- C9: `moveFileWithFallback` reports failure by returning `false`
(never throwing) — both on a plain rename error and on an `EXDEV` whose
copy fallback fails — and `handleUploadComplete` returns `true`
unconditionally on the solo path, discarding the `moveFile` result; so
the completing PATCH of a solo upload answers 204 with
`Upload-Complete: true` under every I/O environment, including ones in
which the move failed. -/
theorem C9_solo_complete_ignores_move_failure :
    (∀ (env : FsEnv) (fs : FsState) (src dst : String),
      env.renameOutcome src dst = RenameOutcome.err →
      moveFileWithFallback env fs src dst = (false, fs)) ∧
    (∀ (env : FsEnv) (fs : FsState) (src dst : String),
      env.renameOutcome src dst = RenameOutcome.exdev →
      env.copyFails src dst = true →
      moveFileWithFallback env fs src dst = (false, fs)) ∧
    (∀ (env : FsEnv) (uploadId : String) (info : UploadInfo)
      (asm : List (String × MultipartAssembly)) (fs : FsState),
      ¬ (isMultipartMeta info.metadata = true ∧
        info.metadata.totalParts ≠ some "1") →
      (handleUploadComplete env uploadId info asm fs).1 = Except.ok true) ∧
    (∀ (env : FsEnv) (uid h : String) (body : Bytes) (st : ServerState)
      (info : UploadInfo),
      h ≠ "" →
      st.fs.read (pathJoin stagingDir (uid ++ ".json")) = some (.meta info) →
      nanEq (parseIntJs h) info.offset = true →
      ¬ (isMultipartMeta info.metadata = true ∧
        info.metadata.totalParts ≠ some "1") →
      nanGe (nanAdd info.offset body.length) info.size = true →
      (PATCH env (some uid) (some h) (some octetStreamCT) body st).1.status = 204 ∧
      ("Upload-Complete", "true") ∈
        (PATCH env (some uid) (some h) (some octetStreamCT) body st).1.headers) := by
  refine ⟨?_, ?_, ?_, ?_⟩
  · intro env fs src dst hr
    unfold moveFileWithFallback
    cases hs : fs.read src with
    | none => rfl
    | some d => rw [hr]
  · intro env fs src dst hr hc
    unfold moveFileWithFallback
    cases hs : fs.read src with
    | none => rfl
    | some d => rw [hr]; simp [hc]
  · intro env uploadId info asm fs hsolo
    rw [handleUploadComplete_solo env uploadId info asm fs hsolo]
  · intro env uid h body st info hne hmeta heq hsolo hge
    rw [PATCH_accepted_eq env uid h body st info hne hmeta heq]
    simp only []
    rw [if_pos (by exact hge)]
    rw [handleUploadComplete_solo env uid
      { info with offset := nanAdd info.offset body.length } st.assemblies
      (acceptedFs uid body st.fs info) hsolo]
    refine ⟨rfl, ?_⟩
    simp

/-- C9 witness: a concrete solo upload of one byte whose rename fails
(`renameOutcome = err` everywhere): the completing PATCH still answers
204 with `Upload-Complete: true`, and the failed move returned `false`
leaving the filesystem unchanged. -/
theorem C9_witness :
    moveFileWithFallback ⟨fun _ _ => RenameOutcome.err, fun _ _ => true⟩
      ⟨[("./staging/id1", .bin [7])]⟩ "./staging/id1" "./uploads/id1" =
      (false, ⟨[("./staging/id1", .bin [7])]⟩) ∧
    (PATCH ⟨fun _ _ => RenameOutcome.err, fun _ _ => true⟩ (some "id1") (some "0")
      (some octetStreamCT) [7]
      ⟨[], (POST (some "1") {} "id1" "cd" "http" "h" ⟨[]⟩).2⟩).1.status = 204 ∧
    ("Upload-Complete", "true") ∈
      (PATCH ⟨fun _ _ => RenameOutcome.err, fun _ _ => true⟩ (some "id1") (some "0")
        (some octetStreamCT) [7]
        ⟨[], (POST (some "1") {} "id1" "cd" "http" "h" ⟨[]⟩).2⟩).1.headers := by
  refine ⟨?_, ?_, ?_⟩
  · exact C9_solo_complete_ignores_move_failure.1
      ⟨fun _ _ => RenameOutcome.err, fun _ _ => true⟩
      ⟨[("./staging/id1", .bin [7])]⟩ "./staging/id1" "./uploads/id1" rfl
  · exact (C9_solo_complete_ignores_move_failure.2.2.2
      ⟨fun _ _ => RenameOutcome.err, fun _ _ => true⟩ "id1" "0" [7]
      ⟨[], (POST (some "1") {} "id1" "cd" "http" "h" ⟨[]⟩).2⟩
      { id := "id1", size := some 1, offset := some 0, metadata := {},
        creation_date := "cd" }
      (by decide) (by decide) (by decide) (by decide) (by decide)).1
  · exact (C9_solo_complete_ignores_move_failure.2.2.2
      ⟨fun _ _ => RenameOutcome.err, fun _ _ => true⟩ "id1" "0" [7]
      ⟨[], (POST (some "1") {} "id1" "cd" "http" "h" ⟨[]⟩).2⟩
      { id := "id1", size := some 1, offset := some 0, metadata := {},
        creation_date := "cd" }
      (by decide) (by decide) (by decide) (by decide) (by decide)).2

/-! ## C4: offset invariants across accepted PATCHes -/

/-- C4 counterexample: the server never checks that a PATCH body fits in
the remaining size, so `offset ≤ size` is not an invariant.  Create an
upload with `Upload-Length: 1`, then PATCH two bytes at offset 0: the
request is accepted (204) and the rewritten sidecar — moved to the
destination by the completion that `offset >= size` triggers — stores
`offset = 2 > size = 1`. -/
theorem C4_counterexample :
    (PATCH envAllOk (some "id1") (some "0") (some octetStreamCT) [7, 8]
        ⟨[], (POST (some "1") {} "id1" "cd" "http" "h" ⟨[]⟩).2⟩).1.status = 204 ∧
    (PATCH envAllOk (some "id1") (some "0") (some octetStreamCT) [7, 8]
        ⟨[], (POST (some "1") {} "id1" "cd" "http" "h" ⟨[]⟩).2⟩).2.fs.read
      "./uploads/id1.json" =
      some (.meta { id := "id1", size := some 1, offset := some 2,
                    metadata := {}, creation_date := "cd" }) ∧
    ¬ ((2 : Int) ≤ (1 : Int)) := by
  refine ⟨by decide, by decide, by decide⟩

/-- C4 (amended): across accepted PATCHes the stored offset is
monotonically non-decreasing and non-negative, and the response reports
the new offset; `offset ≤ size` holds after the append only provided the
accepted body length is at most `size − offset` (the server does not
enforce this), with the sidecar rewritten to `offset + |body|` whenever
the upload is still incomplete; and completion is declared iff
`offset ≥ size` (not only at equality), shown here on the solo path by
the presence of the `Upload-Complete` header. -/
theorem C4_offset_invariants_amended (env : FsEnv) (uid h : String) (body : Bytes)
    (st : ServerState) (info : UploadInfo) (o : Int)
    (hne : h ≠ "")
    (hmeta : st.fs.read (pathJoin stagingDir (uid ++ ".json")) = some (.meta info))
    (hoff : info.offset = some o)
    (heq : nanEq (parseIntJs h) info.offset = true)
    (hnonneg : 0 ≤ o) :
    (o ≤ o + (body.length : Int) ∧ 0 ≤ o + (body.length : Int)) ∧
    (∀ s : Int, info.size = some s → o + (body.length : Int) < s →
      (PATCH env (some uid) (some h) (some octetStreamCT) body st).1.status = 204 ∧
      resHeader (PATCH env (some uid) (some h) (some octetStreamCT) body st).1
        "Upload-Offset" = some (toString (o + (body.length : Int))) ∧
      (PATCH env (some uid) (some h) (some octetStreamCT) body st).2.fs.read
        (pathJoin stagingDir (uid ++ ".json")) =
        some (.meta { info with offset := some (o + (body.length : Int)) })) ∧
    (¬ (isMultipartMeta info.metadata = true ∧
        info.metadata.totalParts ≠ some "1") →
      ∀ s : Int, info.size = some s →
      (PATCH env (some uid) (some h) (some octetStreamCT) body st).1.status = 204 ∧
      ((("Upload-Complete", "true") ∈
        (PATCH env (some uid) (some h) (some octetStreamCT) body st).1.headers) ↔
        s ≤ o + (body.length : Int))) := by
  have hadd : nanAdd info.offset body.length = some (o + (body.length : Int)) := by
    rw [hoff]; rfl
  refine ⟨⟨by omega, by omega⟩, ?_, ?_⟩
  · intro s hs hlt
    rw [PATCH_accepted_eq env uid h body st info hne hmeta heq]
    have hge : nanGe (nanAdd info.offset body.length) info.size = false := by
      rw [hadd, hs]
      simp [nanGe]
      omega
    simp only [hadd, hs]
    rw [if_neg (by rw [← hadd, ← hs] at *; rw [hge]; simp)]
    refine ⟨rfl, ?_, ?_⟩
    · show alookup [("Tus-Resumable", "1.0.0"),
        ("Upload-Offset", ofsToString (some (o + (body.length : Int))))]
        "Upload-Offset" = _
      simp [alookup, ofsToString]
    · show (acceptedFs uid body st.fs info).read
        (pathJoin stagingDir (uid ++ ".json")) = _
      unfold acceptedFs FsState.read FsState.write
      simp [alookup, aset, hadd, hs]
  · intro hsolo s hs
    rw [PATCH_accepted_eq env uid h body st info hne hmeta heq]
    by_cases hge : s ≤ o + (body.length : Int)
    · have hb : nanGe (nanAdd info.offset body.length) info.size = true := by
        rw [hadd, hs]; simp [nanGe]; omega
      simp only [hb, if_true]
      rw [handleUploadComplete_solo env uid
        { info with offset := nanAdd info.offset body.length } st.assemblies
        (acceptedFs uid body st.fs info) hsolo]
      refine ⟨by trivial, ?_⟩
      simp [hge]
    · have hb : nanGe (nanAdd info.offset body.length) info.size = false := by
        rw [hadd, hs]; simp [nanGe]; omega
      simp only [hb, Bool.false_eq_true, if_false]
      refine ⟨by trivial, ?_⟩
      simp [hge]

/-- C4 witness: the amended per-step properties at a concrete accepted
PATCH — size 10, stored offset 0, a 4-byte body: offset grows to 4 ≤ 10,
the sidecar is rewritten accordingly and no completion is declared. -/
theorem C4_witness :
    ((0 : Int) ≤ 0 + (4 : Nat) ∧ (0 : Int) ≤ 0 + (4 : Nat)) ∧
    (PATCH envAllOk (some "id1") (some "0") (some octetStreamCT) [1, 2, 3, 4]
      ⟨[], (POST (some "10") {} "id1" "cd" "http" "h" ⟨[]⟩).2⟩).1.status = 204 ∧
    (PATCH envAllOk (some "id1") (some "0") (some octetStreamCT) [1, 2, 3, 4]
      ⟨[], (POST (some "10") {} "id1" "cd" "http" "h" ⟨[]⟩).2⟩).2.fs.read
      "./staging/id1.json" =
      some (.meta { id := "id1", size := some 10, offset := some 4,
                    metadata := {}, creation_date := "cd" }) ∧
    ¬ (("Upload-Complete", "true") ∈
      (PATCH envAllOk (some "id1") (some "0") (some octetStreamCT) [1, 2, 3, 4]
        ⟨[], (POST (some "10") {} "id1" "cd" "http" "h" ⟨[]⟩).2⟩).1.headers) := by
  have h := C4_offset_invariants_amended envAllOk "id1" "0" [1, 2, 3, 4]
    ⟨[], (POST (some "10") {} "id1" "cd" "http" "h" ⟨[]⟩).2⟩
    { id := "id1", size := some 10, offset := some 0, metadata := {},
      creation_date := "cd" } 0
    (by decide) (by decide) (by decide) (by decide) (by decide)
  have h2 := h.2.1 10 (by decide) (by decide)
  have h3 := h.2.2 (by decide) 10 (by decide)
  refine ⟨⟨by omega, by omega⟩, h2.1, ?_, ?_⟩
  · have := h2.2.2
    simpa using this
  · intro hmem
    have h4 := h3.2.mp hmem
    norm_num at h4

/-! ## Association list lemmas -/

theorem alookup_aerase_self {κ α : Type} [DecidableEq κ] (l : List (κ × α)) (k : κ) :
    alookup (aerase l k) k = none := by
  induction l with
  | nil => rfl
  | cons p r ih =>
      rcases p with ⟨k', v⟩
      unfold aerase
      by_cases h : k' = k
      · rw [if_pos h]; exact ih
      · rw [if_neg h]
        unfold alookup
        rw [if_neg h]
        exact ih

theorem alookup_aerase_ne {κ α : Type} [DecidableEq κ] (l : List (κ × α)) (k k' : κ)
    (h : k ≠ k') : alookup (aerase l k) k' = alookup l k' := by
  induction l with
  | nil => rfl
  | cons p r ih =>
      rcases p with ⟨k0, v⟩
      show alookup (if k0 = k then aerase r k else (k0, v) :: aerase r k) k' =
        (if k0 = k' then some v else alookup r k')
      by_cases h0 : k0 = k
      · rw [if_pos h0, ih, if_neg (by rw [h0]; exact h)]
      · rw [if_neg h0]
        show (if k0 = k' then some v else alookup (aerase r k) k') = _
        by_cases h1 : k0 = k'
        · rw [if_pos h1, if_pos h1]
        · rw [if_neg h1, if_neg h1]
          exact ih

theorem alookup_aset_self {κ α : Type} [DecidableEq κ] (l : List (κ × α)) (k : κ)
    (v : α) : alookup (aset l k v) k = some v := by
  show (if k = k then some v else alookup (aerase l k) k) = some v
  rw [if_pos rfl]

theorem alookup_aset_ne {κ α : Type} [DecidableEq κ] (l : List (κ × α)) (k k' : κ)
    (v : α) (h : k ≠ k') : alookup (aset l k v) k' = alookup l k' := by
  show (if k = k' then some v else alookup (aerase l k) k') = alookup l k'
  rw [if_neg h]
  exact alookup_aerase_ne l k k' h

theorem fsRead_write_self (fs : FsState) (p : String) (d : FileData) :
    (fs.write p d).read p = some d := alookup_aset_self fs.entries p d

theorem fsRead_write_ne (fs : FsState) (p q : String) (d : FileData) (h : p ≠ q) :
    (fs.write p d).read q = fs.read q := alookup_aset_ne fs.entries p q d h

theorem fsRead_erase_self (fs : FsState) (p : String) :
    (fs.erase p).read p = none := alookup_aerase_self fs.entries p

theorem fsRead_erase_ne (fs : FsState) (p q : String) (h : p ≠ q) :
    (fs.erase p).read q = fs.read q := alookup_aerase_ne fs.entries p q h

/-! ## C6: failures during reassembly -/

/-- An environment in which every rename fails outright and every copy
fallback fails too. -/
def envAllFail : FsEnv := ⟨fun _ _ => RenameOutcome.err, fun _ _ => true⟩

/-- Metadata of part `i` of a two-part multipart group of total size 3,
as the client would send it. -/
def partMeta (i : String) : PartialUploadMetadata :=
  { multipartId := some "m", partIndex := some i, totalParts := some "2",
    originalFileSize := some "3" }

/-- A concrete server state with both parts of a two-part group staged
("aa" carrying [1] still open, "bb" carrying [2, 3] already completed
via PATCH, so the assembly map holds one entry for "m"). -/
def c6state : ServerState :=
  (PATCH envAllFail (some "bb") (some "0") (some octetStreamCT) [2, 3]
    ⟨[], (POST (some "2") (partMeta "2") "bb" "cd" "p" "h"
      (POST (some "1") (partMeta "1") "aa" "cd" "p" "h" ⟨[]⟩).2).2⟩).2

/-- C6 counterexample: a failed rename/copy during reassembly is NOT
propagated to the triggering PATCH.  With every rename and copy failing,
the PATCH that completes the last sibling still answers 204 with
`Upload-Complete: true`; the assembled bytes stay at `./staging/aa`, the
destination file is never created, and the assembly entry is gone. -/
theorem C6_counterexample :
    (PATCH envAllFail (some "aa") (some "0") (some octetStreamCT) [1] c6state).1 =
      ⟨204, [("Tus-Resumable", "1.0.0"), ("Upload-Offset", "1"),
             ("Upload-Complete", "true")], .empty⟩ ∧
    (PATCH envAllFail (some "aa") (some "0") (some octetStreamCT) [1]
      c6state).2.fs.read "./staging/aa" = some (.bin [1, 2, 3]) ∧
    (PATCH envAllFail (some "aa") (some "0") (some octetStreamCT) [1]
      c6state).2.fs.read "./uploads/aa" = none ∧
    (PATCH envAllFail (some "aa") (some "0") (some octetStreamCT) [1]
      c6state).2.assemblies = [] := by
  refine ⟨by decide, by decide, by decide, by decide⟩

/-- C6 (amended): during reassembly only a failure of the append loop
(such as a missing sibling payload) propagates: `assembleFile` then
returns exactly the loop's result at the throw point — already-appended
bytes remain on disk and the base file is never moved — and
`handlePartCompletion` rethrows it.  Failures of the sidecar rewrite and
of the destination rename/copy are caught and only logged, so whenever
the loop succeeds the completion reports success under every I/O
environment.  In all cases where assembly was attempted the in-memory
entry is removed (a later lookup of the `multipartId` finds nothing). -/
theorem C6_assembly_errors_amended :
    (∀ (env : FsEnv) (a : MultipartAssembly) (fs : FsState),
      (assembleSeq a.parts
        (pathJoin stagingDir ((alookup a.parts (some 1)).getD "undefined"))
        (List.range' 2 (loopCount a.totalParts)) fs).1 = Except.error () →
      assembleFile env a fs =
        assembleSeq a.parts
          (pathJoin stagingDir ((alookup a.parts (some 1)).getD "undefined"))
          (List.range' 2 (loopCount a.totalParts)) fs) ∧
    (∀ (env : FsEnv) (a : MultipartAssembly) (fs : FsState),
      (assembleSeq a.parts
        (pathJoin stagingDir ((alookup a.parts (some 1)).getD "undefined"))
        (List.range' 2 (loopCount a.totalParts)) fs).1 = Except.ok () →
      (assembleFile env a fs).1 = Except.ok ()) ∧
    (∀ (env : FsEnv) (uploadId : String) (metadata : PartialUploadMetadata)
      (asm : List (String × MultipartAssembly)) (fs : FsState),
      (handlePartCompletion env uploadId metadata asm fs).1 ≠ Except.ok false →
      alookup (handlePartCompletion env uploadId metadata asm fs).2.1
        (metadata.multipartId.getD "") = none) := by
  refine ⟨?_, ?_, ?_⟩
  · intro env a fs herr
    rcases hseq : assembleSeq a.parts
        (pathJoin stagingDir ((alookup a.parts (some 1)).getD "undefined"))
        (List.range' 2 (loopCount a.totalParts)) fs with ⟨e, fs1⟩
    rw [hseq] at herr
    cases e with
    | ok u => exact absurd herr (by simp)
    | error u =>
        cases u
        simp only [assembleFile, hseq]
  · intro env a fs hok
    rcases hseq : assembleSeq a.parts
        (pathJoin stagingDir ((alookup a.parts (some 1)).getD "undefined"))
        (List.range' 2 (loopCount a.totalParts)) fs with ⟨e, fs1⟩
    rw [hseq] at hok
    cases e with
    | ok u =>
        cases u
        simp only [assembleFile, hseq]
    | error u => exact absurd hok (by simp)
  · intro env uploadId metadata asm fs hne
    unfold handlePartCompletion at hne ⊢
    by_cases hsz : sizeEqTotal (recordPart uploadId metadata asm) = true
    · rw [if_pos hsz] at hne ⊢
      rcases hasm : assembleFile env (recordPart uploadId metadata asm) fs
        with ⟨e, fs1⟩
      cases e with
      | ok u => exact alookup_aerase_self _ _
      | error u => exact alookup_aerase_self _ _
    · rw [if_neg hsz] at hne
      exact absurd rfl hne

/-- C6 witness: the amended propagation clause at a concrete missing
sibling — the assembly maps part 2 to id "zz" whose payload does not
exist, so the append loop throws, `assembleFile` surfaces exactly the
loop's error state, and the triggering completion removes the assembly
entry. -/
theorem C6_witness :
    assembleFile envAllOk
      { parts := [(some 1, "aa"), (some 2, "zz")], totalParts := some 2,
        metadata := partMeta "1" }
      ⟨[("./staging/aa", .bin [1])]⟩ =
      assembleSeq [(some 1, "aa"), (some 2, "zz")] "./staging/aa" [2]
        ⟨[("./staging/aa", .bin [1])]⟩ ∧
    alookup (handlePartCompletion envAllOk "bb" (partMeta "2")
      [("m", { parts := [(some 1, "aa")], totalParts := some 2,
               metadata := partMeta "1" })]
      ⟨[("./staging/aa", .bin [1])]⟩).2.1 "m" = none := by
  refine ⟨?_, ?_⟩
  · exact C6_assembly_errors_amended.1 envAllOk
      { parts := [(some 1, "aa"), (some 2, "zz")], totalParts := some 2,
        metadata := partMeta "1" }
      ⟨[("./staging/aa", .bin [1])]⟩ (by decide)
  · exact C6_assembly_errors_amended.2.2 envAllOk "bb" (partMeta "2")
      [("m", { parts := [(some 1, "aa")], totalParts := some 2,
               metadata := partMeta "1" })]
      ⟨[("./staging/aa", .bin [1])]⟩ (by decide)

/-! ## C3: offset-mismatch PATCH -/

/-- C3: a PATCH whose `Upload-Offset` header does not parse to the
stored offset is answered 409 `{ error: 'Offset mismatch' }` with the
whole server state unchanged — no bytes appended, no sidecar rewrite —
so a subsequent HEAD on the same staging id still reports the previous
offset. -/
theorem C3_offset_mismatch_409 (env : FsEnv) (uid h : String) (body : Bytes)
    (st : ServerState) (info : UploadInfo)
    (hne : h ≠ "")
    (hmeta : st.fs.read (pathJoin stagingDir (uid ++ ".json")) = some (.meta info))
    (hmis : nanEq (parseIntJs h) info.offset = false) :
    PATCH env (some uid) (some h) (some octetStreamCT) body st =
      (jsonError 409 "Offset mismatch", st) ∧
    resHeader (HEAD (some uid)
        (PATCH env (some uid) (some h) (some octetStreamCT) body st).2.fs)
      "Upload-Offset" = some (ofsToString info.offset) := by
  have h1 : PATCH env (some uid) (some h) (some octetStreamCT) body st =
      (jsonError 409 "Offset mismatch", st) := by
    unfold PATCH
    simp only [truthy_some hne, Bool.true_eq_false, if_false, ne_eq,
      not_true_eq_false, Bool.false_eq_true, hmeta, Option.getD_some, hmis,
      if_true, ite_true]
  refine ⟨h1, ?_⟩
  rw [h1]
  unfold HEAD
  simp only [hmeta]
  simp [resHeader, alookup]

/-- C3 witness: an upload created with `Upload-Length: 100` (stored
offset 0), then PATCHed with `Upload-Offset: 5`: 409, no bytes written,
state unchanged, and HEAD still reports offset 0. -/
theorem C3_witness :
    PATCH envAllOk (some "id1") (some "5") (some octetStreamCT) [9, 9]
      ⟨[], (POST (some "100") {} "id1" "cd" "http" "h" ⟨[]⟩).2⟩ =
      (jsonError 409 "Offset mismatch",
        ⟨[], (POST (some "100") {} "id1" "cd" "http" "h" ⟨[]⟩).2⟩) ∧
    resHeader (HEAD (some "id1")
        (PATCH envAllOk (some "id1") (some "5") (some octetStreamCT) [9, 9]
          ⟨[], (POST (some "100") {} "id1" "cd" "http" "h" ⟨[]⟩).2⟩).2.fs)
      "Upload-Offset" = some "0" :=
  C3_offset_mismatch_409 envAllOk "id1" "5" [9, 9]
    ⟨[], (POST (some "100") {} "id1" "cd" "http" "h" ⟨[]⟩).2⟩
    { id := "id1", size := some 100, offset := some 0, metadata := {},
      creation_date := "cd" }
    (by decide) (by decide) (by decide)

/-! ## C5: duplicate pre-rejection at create -/

/-- C5: with `Upload-Length` present, POST is rejected with 409 — and
then with exactly the body `{ error: { message: 'File "X" already
exists and duplicates are not allowed' } }` and no staging artifacts
created (the filesystem is returned unchanged) — if and only if
`withFilename == "original"`, `filename` is present and non-empty,
`onDuplicate == "prevent"`, and the sanitized filename already exists
under the destination directory.  This is the only 409 a POST can
produce; every other policy leaves collision handling to the rename at
finalize. -/
theorem C5_duplicate_reject_iff (len : String) (hlen : len ≠ "")
    (metadata : PartialUploadMetadata) (uploadId creationDate proto host : String)
    (fs : FsState) :
    ((POST (some len) metadata uploadId creationDate proto host fs).1.status = 409 ↔
      (metadata.withFilename = some "original" ∧ truthy metadata.filename = true ∧
       metadata.onDuplicate = some "prevent" ∧
       checkDuplicateFile fs (sanitizeFilename (metadata.filename.getD ""))
         metadata.destinationPath = true)) ∧
    ((metadata.withFilename = some "original" ∧ truthy metadata.filename = true ∧
      metadata.onDuplicate = some "prevent" ∧
      checkDuplicateFile fs (sanitizeFilename (metadata.filename.getD ""))
        metadata.destinationPath = true) →
      POST (some len) metadata uploadId creationDate proto host fs =
        (⟨409, [], .errorMessage ("File \"" ++ metadata.filename.getD "" ++
          "\" already exists and duplicates are not allowed")⟩, fs)) := by
  unfold POST
  rw [truthy_some hlen]
  rw [if_neg (by simp)]
  by_cases hc : metadata.withFilename = some "original" ∧
      truthy metadata.filename = true ∧
      metadata.onDuplicate = some "prevent" ∧
      checkDuplicateFile fs (sanitizeFilename (metadata.filename.getD ""))
        metadata.destinationPath = true
  · rw [if_pos hc]
    exact ⟨⟨fun _ => hc, fun _ => rfl⟩, fun _ => rfl⟩
  · rw [if_neg hc]
    refine ⟨⟨fun hresp => ?_, fun h => absurd h hc⟩, fun h => absurd h hc⟩
    exact absurd hresp (by simp)

/-- C5 witness: metadata `filename=report.pdf, withFilename=original,
onDuplicate=prevent` against a mount already containing
`./uploads/report.pdf`: POST answers 409 with the exact message and
leaves the filesystem unchanged. -/
theorem C5_witness :
    POST (some "100")
      { filename := some "report.pdf", withFilename := some "original",
        onDuplicate := some "prevent" }
      "id1" "cd" "http" "h" ⟨[("./uploads/report.pdf", .bin [])]⟩ =
      (⟨409, [], .errorMessage
        "File \"report.pdf\" already exists and duplicates are not allowed"⟩,
       ⟨[("./uploads/report.pdf", .bin [])]⟩) :=
  (C5_duplicate_reject_iff "100" (by decide)
    { filename := some "report.pdf", withFilename := some "original",
      onDuplicate := some "prevent" }
    "id1" "cd" "http" "h" ⟨[("./uploads/report.pdf", .bin [])]⟩).2
    ⟨rfl, by decide, rfl, by decide⟩

/-! ## C2: Upload-Complete marks completion of the logical file -/

theorem handleUploadComplete_multipart (env : FsEnv) (uploadId : String)
    (info : UploadInfo) (asm : List (String × MultipartAssembly)) (fs : FsState)
    (hm : isMultipartMeta info.metadata = true ∧
      info.metadata.totalParts ≠ some "1") :
    handleUploadComplete env uploadId info asm fs =
      handlePartCompletion env uploadId info.metadata asm fs := by
  unfold handleUploadComplete
  rw [if_pos hm]

/-- C2: the `Upload-Complete: true` header marks exactly the completion
of the whole logical file: (i) a completing accepted solo PATCH carries
it; (ii) an accepted PATCH that leaves the part incomplete answers 204
without it; (iii) `handlePartCompletion` returns `false` whenever the
recorded sibling count is still below `totalParts`, leaving the group
pending — and the triggering PATCH then omits the header; and (iv) it
returns `true` precisely when the group is full and `assembleFile`
succeeded (an assembly failure is rethrown instead). -/
theorem C2_upload_complete_iff :
    (∀ (env : FsEnv) (uid h : String) (body : Bytes) (st : ServerState)
      (info : UploadInfo),
      h ≠ "" →
      st.fs.read (pathJoin stagingDir (uid ++ ".json")) = some (.meta info) →
      nanEq (parseIntJs h) info.offset = true →
      ¬ (isMultipartMeta info.metadata = true ∧
        info.metadata.totalParts ≠ some "1") →
      nanGe (nanAdd info.offset body.length) info.size = true →
      (PATCH env (some uid) (some h) (some octetStreamCT) body st).1.status = 204 ∧
      ("Upload-Complete", "true") ∈
        (PATCH env (some uid) (some h) (some octetStreamCT) body st).1.headers) ∧
    (∀ (env : FsEnv) (uid h : String) (body : Bytes) (st : ServerState)
      (info : UploadInfo),
      h ≠ "" →
      st.fs.read (pathJoin stagingDir (uid ++ ".json")) = some (.meta info) →
      nanEq (parseIntJs h) info.offset = true →
      nanGe (nanAdd info.offset body.length) info.size = false →
      (PATCH env (some uid) (some h) (some octetStreamCT) body st).1.status = 204 ∧
      ¬ ("Upload-Complete", "true") ∈
        (PATCH env (some uid) (some h) (some octetStreamCT) body st).1.headers) ∧
    (∀ (env : FsEnv) (uid : String) (md : PartialUploadMetadata)
      (asm : List (String × MultipartAssembly)) (fs : FsState) (t : Int),
      (recordPart uid md asm).totalParts = some t →
      ((recordPart uid md asm).parts.length : Int) < t →
      handlePartCompletion env uid md asm fs =
        (.ok false, aset asm (md.multipartId.getD "") (recordPart uid md asm), fs)) ∧
    (∀ (env : FsEnv) (uid : String) (md : PartialUploadMetadata)
      (asm : List (String × MultipartAssembly)) (fs : FsState),
      (handlePartCompletion env uid md asm fs).1 = Except.ok true ↔
        (sizeEqTotal (recordPart uid md asm) = true ∧
         (assembleFile env (recordPart uid md asm) fs).1 = Except.ok ())) ∧
    (∀ (env : FsEnv) (uid h : String) (body : Bytes) (st : ServerState)
      (info : UploadInfo),
      h ≠ "" →
      st.fs.read (pathJoin stagingDir (uid ++ ".json")) = some (.meta info) →
      nanEq (parseIntJs h) info.offset = true →
      isMultipartMeta info.metadata = true ∧
        info.metadata.totalParts ≠ some "1" →
      nanGe (nanAdd info.offset body.length) info.size = true →
      (handlePartCompletion env uid info.metadata st.assemblies
        (acceptedFs uid body st.fs info)).1 = Except.ok false →
      (PATCH env (some uid) (some h) (some octetStreamCT) body st).1.status = 204 ∧
      ¬ ("Upload-Complete", "true") ∈
        (PATCH env (some uid) (some h) (some octetStreamCT) body st).1.headers) := by
  refine ⟨?_, ?_, ?_, ?_, ?_⟩
  · intro env uid h body st info hne hmeta heq hsolo hge
    rw [PATCH_accepted_eq env uid h body st info hne hmeta heq]
    simp only [hge, if_true]
    rw [handleUploadComplete_solo env uid
      { info with offset := nanAdd info.offset body.length } st.assemblies
      (acceptedFs uid body st.fs info) hsolo]
    exact ⟨by trivial, by simp⟩
  · intro env uid h body st info hne hmeta heq hge
    rw [PATCH_accepted_eq env uid h body st info hne hmeta heq]
    simp only [hge, Bool.false_eq_true, if_false]
    exact ⟨by trivial, by simp⟩
  · intro env uid md asm fs t ht hlt
    unfold handlePartCompletion
    rw [if_neg ?hsz]
    case hsz =>
      unfold sizeEqTotal
      rw [ht]
      simp only [decide_eq_true_eq]
      omega
  · intro env uid md asm fs
    unfold handlePartCompletion
    by_cases hsz : sizeEqTotal (recordPart uid md asm) = true
    · rw [if_pos hsz]
      rcases hasm : assembleFile env (recordPart uid md asm) fs with ⟨e, fs1⟩
      cases e with
      | ok u =>
          cases u
          simp [hsz]
      | error u =>
          cases u
          simp [hsz]
    · rw [if_neg hsz]
      simp [hsz]
  · intro env uid h body st info hne hmeta heq hm hge hfalse
    rw [PATCH_accepted_eq env uid h body st info hne hmeta heq]
    simp only [hge, if_true]
    rw [handleUploadComplete_multipart env uid
      { info with offset := nanAdd info.offset body.length } st.assemblies
      (acceptedFs uid body st.fs info) hm]
    rcases hr : handlePartCompletion env uid info.metadata st.assemblies
        (acceptedFs uid body st.fs info) with ⟨e, a1, f1⟩
    have he : e = Except.ok false := by rw [hr] at hfalse; exact hfalse
    subst he
    exact ⟨by trivial, by simp⟩

/-- C2 witness: the first completing part of a two-part group gets 204
without `Upload-Complete` (conjunct iii via the PATCH of part "bb"),
while a completing solo PATCH gets the header (conjunct i). -/
theorem C2_witness :
    handlePartCompletion envAllOk "bb" (partMeta "2") []
      ⟨[("./staging/bb", .bin [2, 3])]⟩ =
      (.ok false, aset [] "m" (recordPart "bb" (partMeta "2") []),
        ⟨[("./staging/bb", .bin [2, 3])]⟩) ∧
    ("Upload-Complete", "true") ∈
      (PATCH envAllOk (some "id1") (some "0") (some octetStreamCT) [7]
        ⟨[], (POST (some "1") {} "id1" "cd" "http" "h" ⟨[]⟩).2⟩).1.headers := by
  refine ⟨?_, ?_⟩
  · exact C2_upload_complete_iff.2.2.1 envAllOk "bb" (partMeta "2") []
      ⟨[("./staging/bb", .bin [2, 3])]⟩ 2 (by decide) (by decide)
  · exact (C2_upload_complete_iff.1 envAllOk "id1" "0" [7]
      ⟨[], (POST (some "1") {} "id1" "cd" "http" "h" ⟨[]⟩).2⟩
      { id := "id1", size := some 1, offset := some 0, metadata := {},
        creation_date := "cd" }
      (by decide) (by decide) (by decide) (by decide) (by decide)).2

/-! ## C1: multipart reassembly helpers -/

/-- Concatenation of part payloads over an index list. -/
def catList (P : Nat → Bytes) : List Nat → Bytes
  | [] => []
  | i :: rest => P i ++ catList P rest

theorem string_ne_append_json (s : String) : s ≠ s ++ ".json" := by
  intro h
  have hd := congrArg String.data h
  rw [String.data_append] at hd
  have hlen := congrArg List.length hd
  rw [List.length_append] at hlen
  simp at hlen

theorem fsRead_erase_none (fs : FsState) (p q : String) (h : fs.read q = none) :
    (fs.erase p).read q = none := by
  by_cases hpq : p = q
  · rw [hpq]; exact fsRead_erase_self fs q
  · rw [fsRead_erase_ne fs p q hpq]; exact h

theorem existsPath_false_read (fs : FsState) (p : String)
    (h : ¬ fs.existsPath p = true) : fs.read p = none := by
  unfold FsState.existsPath at h
  rcases hr : fs.read p with _ | d
  · rfl
  · rw [hr] at h
    simp at h

theorem cleanupPartFiles_read_part (fs : FsState) (partId : String) :
    (cleanupPartFiles fs partId).read (pathJoin stagingDir partId) = none := by
  unfold cleanupPartFiles
  by_cases h1 : fs.existsPath (pathJoin stagingDir partId) = true
  · rw [if_pos h1]
    have h2 : (fs.erase (pathJoin stagingDir partId)).read
        (pathJoin stagingDir partId) = none := fsRead_erase_self fs _
    by_cases h3 : (fs.erase (pathJoin stagingDir partId)).existsPath
        (pathJoin stagingDir (partId ++ ".json")) = true
    · rw [if_pos h3]; exact fsRead_erase_none _ _ _ h2
    · rw [if_neg h3]; exact h2
  · rw [if_neg h1]
    have h2 : fs.read (pathJoin stagingDir partId) = none :=
      existsPath_false_read fs _ h1
    by_cases h3 : fs.existsPath (pathJoin stagingDir (partId ++ ".json")) = true
    · rw [if_pos h3]; exact fsRead_erase_none _ _ _ h2
    · rw [if_neg h3]; exact h2

theorem cleanupPartFiles_read_json (fs : FsState) (partId : String) :
    (cleanupPartFiles fs partId).read
      (pathJoin stagingDir (partId ++ ".json")) = none := by
  unfold cleanupPartFiles
  by_cases h1 : fs.existsPath (pathJoin stagingDir partId) = true
  · rw [if_pos h1]
    by_cases h3 : (fs.erase (pathJoin stagingDir partId)).existsPath
        (pathJoin stagingDir (partId ++ ".json")) = true
    · rw [if_pos h3]; exact fsRead_erase_self _ _
    · rw [if_neg h3]; exact existsPath_false_read _ _ h3
  · rw [if_neg h1]
    by_cases h3 : fs.existsPath (pathJoin stagingDir (partId ++ ".json")) = true
    · rw [if_pos h3]; exact fsRead_erase_self _ _
    · rw [if_neg h3]; exact existsPath_false_read _ _ h3

theorem cleanupPartFiles_read_other (fs : FsState) (partId q : String)
    (h1 : q ≠ pathJoin stagingDir partId)
    (h2 : q ≠ pathJoin stagingDir (partId ++ ".json")) :
    (cleanupPartFiles fs partId).read q = fs.read q := by
  unfold cleanupPartFiles
  by_cases e1 : fs.existsPath (pathJoin stagingDir partId) = true
  · rw [if_pos e1]
    by_cases e3 : (fs.erase (pathJoin stagingDir partId)).existsPath
        (pathJoin stagingDir (partId ++ ".json")) = true
    · rw [if_pos e3, fsRead_erase_ne _ _ _ (fun hc => h2 hc.symm),
        fsRead_erase_ne _ _ _ (fun hc => h1 hc.symm)]
    · rw [if_neg e3, fsRead_erase_ne _ _ _ (fun hc => h1 hc.symm)]
  · rw [if_neg e1]
    by_cases e3 : fs.existsPath (pathJoin stagingDir (partId ++ ".json")) = true
    · rw [if_pos e3, fsRead_erase_ne _ _ _ (fun hc => h2 hc.symm)]
    · rw [if_neg e3]

theorem appendPartToFile_ok (fs : FsState) (basePath partPath : String)
    (acc pd : Bytes)
    (hbase : fs.read basePath = some (.bin acc))
    (hpart : fs.read partPath = some (.bin pd)) :
    appendPartToFile fs basePath partPath =
      Except.ok (fs.write basePath (.bin (acc ++ pd))) := by
  unfold appendPartToFile
  rw [hpart]
  simp only [hbase]

/-- The append loop of reassembly, run over indices `k … n`: it succeeds,
accumulates the payloads onto part 1's file in index order, deletes the
processed payloads and sidecars, and touches nothing else. -/
theorem assembleSeq_ok (parts : List (Option Int × String)) (ids : Nat → String)
    (P : Nat → Bytes) (n : Nat)
    (hpart : ∀ i ∈ List.range' 1 n, alookup parts (some (i : Int)) = some (ids i))
    (hD1 : ∀ i ∈ List.range' 1 n, ∀ j ∈ List.range' 1 n, i ≠ j →
      pathJoin stagingDir (ids i) ≠ pathJoin stagingDir (ids j))
    (hD2 : ∀ i ∈ List.range' 1 n, ∀ j ∈ List.range' 1 n,
      pathJoin stagingDir (ids i) ≠ pathJoin stagingDir (ids j ++ ".json"))
    (hD3 : ∀ i ∈ List.range' 1 n, ∀ j ∈ List.range' 1 n, i ≠ j →
      pathJoin stagingDir (ids i ++ ".json") ≠ pathJoin stagingDir (ids j ++ ".json")) :
    ∀ (m k : Nat) (fs : FsState) (acc : Bytes),
      2 ≤ k → k + m = n + 1 →
      fs.read (pathJoin stagingDir (ids 1)) = some (.bin acc) →
      (∀ j, k ≤ j → j ≤ n → fs.read (pathJoin stagingDir (ids j)) = some (.bin (P j))) →
      ∃ fs' : FsState,
        assembleSeq parts (pathJoin stagingDir (ids 1)) (List.range' k m) fs =
          (.ok (), fs') ∧
        fs'.read (pathJoin stagingDir (ids 1)) =
          some (.bin (acc ++ catList P (List.range' k m))) ∧
        (∀ j, k ≤ j → j ≤ n →
          fs'.read (pathJoin stagingDir (ids j)) = none ∧
          fs'.read (pathJoin stagingDir (ids j ++ ".json")) = none) ∧
        (∀ p : String,
          (∀ j, k ≤ j → j ≤ n → p ≠ pathJoin stagingDir (ids j) ∧
            p ≠ pathJoin stagingDir (ids j ++ ".json")) →
          p ≠ pathJoin stagingDir (ids 1) →
          fs'.read p = fs.read p) := by
  intro m
  induction m with
  | zero =>
      intro k fs acc hk2 hkm hbase hparts
      refine ⟨fs, ?_, ?_, ?_, ?_⟩
      · rfl
      · show fs.read _ = some (.bin (acc ++ []))
        rw [List.append_nil]
        exact hbase
      · intro j hjk hjn
        omega
      · intro p _ _
        rfl
  | succ m ih =>
      intro k fs acc hk2 hkm hbase hparts
      have hkn : k ≤ n := by omega
      have hkmem : k ∈ List.range' 1 n := by
        rw [List.mem_range'_1]; omega
      have h1mem : (1 : Nat) ∈ List.range' 1 n := by
        rw [List.mem_range'_1]; omega
      have hk1 : k ≠ 1 := by omega
      rw [List.range'_succ]
      show ∃ fs', assembleSeq parts (pathJoin stagingDir (ids 1))
        (k :: List.range' (k + 1) m) fs = (.ok (), fs') ∧ _
      have hpid : (alookup parts (some (k : Int))).getD "undefined" = ids k := by
        rw [hpart k hkmem]; rfl
      have happ := appendPartToFile_ok fs (pathJoin stagingDir (ids 1))
        (pathJoin stagingDir (ids k)) acc (P k) hbase (hparts k (Nat.le_refl k) hkn)
      have hstep : assembleSeq parts (pathJoin stagingDir (ids 1))
          (k :: List.range' (k + 1) m) fs =
          assembleSeq parts (pathJoin stagingDir (ids 1)) (List.range' (k + 1) m)
            (cleanupPartFiles
              (fs.write (pathJoin stagingDir (ids 1)) (.bin (acc ++ P k)))
              (ids k)) := by
        conv_lhs => unfold assembleSeq
        rw [hpid, happ]
      set fs1 := fs.write (pathJoin stagingDir (ids 1)) (.bin (acc ++ P k)) with hfs1
      set fs2 := cleanupPartFiles fs1 (ids k) with hfs2
      have hbase1 : fs1.read (pathJoin stagingDir (ids 1)) =
          some (.bin (acc ++ P k)) := fsRead_write_self _ _ _
      have hbase2 : fs2.read (pathJoin stagingDir (ids 1)) =
          some (.bin (acc ++ P k)) := by
        rw [hfs2, cleanupPartFiles_read_other fs1 (ids k) _
          (hD1 1 h1mem k hkmem hk1.symm) (hD2 1 h1mem k hkmem)]
        exact hbase1
      have hparts2 : ∀ j, k + 1 ≤ j → j ≤ n →
          fs2.read (pathJoin stagingDir (ids j)) = some (.bin (P j)) := by
        intro j hj1 hjn
        have hjmem : j ∈ List.range' 1 n := by rw [List.mem_range'_1]; omega
        have hjk : j ≠ k := by omega
        have hj1' : j ≠ 1 := by omega
        rw [hfs2, cleanupPartFiles_read_other fs1 (ids k) _
          (hD1 j hjmem k hkmem hjk) (hD2 j hjmem k hkmem), hfs1,
          fsRead_write_ne _ _ _ _ (hD1 1 h1mem j hjmem (fun hc => hj1' hc.symm))]
        exact hparts j (by omega) hjn
      rcases ih (k + 1) fs2 (acc ++ P k) (by omega) (by omega) hbase2 hparts2
        with ⟨fs', hrun, hbase', hdel, hframe⟩
      refine ⟨fs', ?_, ?_, ?_, ?_⟩
      · rw [hstep, hrun]
      · rw [hbase']
        show _ = some (.bin (acc ++ (P k ++ catList P (List.range' (k + 1) m))))
        rw [List.append_assoc]
      · intro j hjk hjn
        by_cases hjk' : j = k
        · rw [hjk']
          have hframe1 : ∀ q : String,
              (∀ j', k + 1 ≤ j' → j' ≤ n → q ≠ pathJoin stagingDir (ids j') ∧
                q ≠ pathJoin stagingDir (ids j' ++ ".json")) →
              q ≠ pathJoin stagingDir (ids 1) → fs'.read q = fs2.read q := hframe
          constructor
          · rw [hframe1 (pathJoin stagingDir (ids k)) ?_ ?_]
            · rw [hfs2]; exact cleanupPartFiles_read_part fs1 (ids k)
            · intro j' hj'1 hj'n
              have hj'mem : j' ∈ List.range' 1 n := by rw [List.mem_range'_1]; omega
              exact ⟨hD1 k hkmem j' hj'mem (by omega), hD2 k hkmem j' hj'mem⟩
            · exact hD1 k hkmem 1 h1mem hk1
          · rw [hframe1 (pathJoin stagingDir (ids k ++ ".json")) ?_ ?_]
            · rw [hfs2]; exact cleanupPartFiles_read_json fs1 (ids k)
            · intro j' hj'1 hj'n
              have hj'mem : j' ∈ List.range' 1 n := by rw [List.mem_range'_1]; omega
              exact ⟨fun hc => hD2 j' hj'mem k hkmem hc.symm,
                hD3 k hkmem j' hj'mem (by omega)⟩
            · exact fun hc => hD2 1 h1mem k hkmem hc.symm
        · exact hdel j (by omega) hjn
      · intro p hp hp1
        rw [hframe p ?_ hp1]
        · rw [hfs2, cleanupPartFiles_read_other fs1 (ids k) p
            (hp k (Nat.le_refl k) hkn).1 (hp k (Nat.le_refl k) hkn).2,
            hfs1, fsRead_write_ne _ _ _ _ (fun hc => hp1 hc.symm)]
        · intro j' hj'1 hj'n
          exact hp j' (by omega) hj'n

theorem moveFileWithFallback_ok (env : FsEnv) (fs : FsState) (src dst : String)
    (d : FileData) (hsrc : fs.read src = some d)
    (henv : env.renameOutcome src dst = RenameOutcome.ok) :
    moveFileWithFallback env fs src dst = (true, (fs.erase src).write dst d) := by
  unfold moveFileWithFallback
  rw [hsrc, henv]

theorem catList_range'_split (P : Nat → Bytes) (n : Nat) (hn : 1 ≤ n) :
    catList P (List.range' 1 n) = P 1 ++ catList P (List.range' 2 (n - 1)) := by
  conv_lhs => rw [show n = (n - 1) + 1 from by omega]
  rw [List.range'_succ]
  rfl

/-- C1: reassembly of a completed multipart group appends the sibling
payloads to part 1's file in strict index order (independently of the
order the parts map was populated), deletes every appended part's
payload and sidecar, overwrites part 1's sidecar with
`size = offset = originalFileSize`, and leaves at the destination a file
whose bytes are `P 1 ++ P 2 ++ … ++ P n` — of length `originalFileSize`
whenever `originalFileSize` is the total of the part sizes, as the
client guarantees.  The staged payloads (part 1's included) are gone;
the rewritten sidecar ends up next to the destination or deleted
according to the filename policy. -/
theorem C1_reassembly (env : FsEnv) (a : MultipartAssembly) (fs : FsState)
    (ids : Nat → String) (P : Nat → Bytes) (n : Nat) (info1 : UploadInfo)
    (fname : String)
    (hn : 1 ≤ n)
    (htot : a.totalParts = some (n : Int))
    (hpart : ∀ i ∈ List.range' 1 n, alookup a.parts (some (i : Int)) = some (ids i))
    (hfsP : ∀ i ∈ List.range' 1 n,
      fs.read (pathJoin stagingDir (ids i)) = some (.bin (P i)))
    (hfsJ : fs.read (pathJoin stagingDir (ids 1 ++ ".json")) = some (.meta info1))
    (hD1 : ∀ i ∈ List.range' 1 n, ∀ j ∈ List.range' 1 n, i ≠ j →
      pathJoin stagingDir (ids i) ≠ pathJoin stagingDir (ids j))
    (hD2 : ∀ i ∈ List.range' 1 n, ∀ j ∈ List.range' 1 n,
      pathJoin stagingDir (ids i) ≠ pathJoin stagingDir (ids j ++ ".json"))
    (hD3 : ∀ i ∈ List.range' 1 n, ∀ j ∈ List.range' 1 n, i ≠ j →
      pathJoin stagingDir (ids i ++ ".json") ≠ pathJoin stagingDir (ids j ++ ".json"))
    (henv : ∀ s d : String, env.renameOutcome s d = RenameOutcome.ok)
    (hfname : ∀ g : FsState,
      getFinalFilename g (mkAssembledMetadata a.metadata) (ids 1) = fname)
    (hdst : ∀ i ∈ List.range' 1 n,
      getFullFilePath fname a.metadata.destinationPath ≠
        pathJoin stagingDir (ids i) ∧
      getFullFilePath fname a.metadata.destinationPath ≠
        pathJoin stagingDir (ids i ++ ".json"))
    (hdstJ : ∀ i ∈ List.range' 1 n,
      getFullFilePath fname a.metadata.destinationPath ++ ".json" ≠
        pathJoin stagingDir (ids i) ∧
      getFullFilePath fname a.metadata.destinationPath ++ ".json" ≠
        pathJoin stagingDir (ids i ++ ".json"))
    (hsize : parseIntJs (truthyGetD a.metadata.originalFileSize "0") =
      some ((catList P (List.range' 1 n)).length : Int)) :
    (∀ g : FsState,
      g.read (pathJoin stagingDir (ids 1 ++ ".json")) = some (.meta info1) →
      (updateAssembledMetadata g (ids 1) a.metadata).read
        (pathJoin stagingDir (ids 1 ++ ".json")) =
        some (.meta { id := ids 1,
                      size := some ((catList P (List.range' 1 n)).length : Int),
                      offset := some ((catList P (List.range' 1 n)).length : Int),
                      metadata := mkAssembledMetadata a.metadata,
                      creation_date := info1.creation_date })) ∧
    (assembleFile env a fs).1 = Except.ok () ∧
    (assembleFile env a fs).2.read
      (getFullFilePath fname a.metadata.destinationPath) =
      some (.bin (catList P (List.range' 1 n))) ∧
    (∀ i ∈ List.range' 1 n,
      (assembleFile env a fs).2.read (pathJoin stagingDir (ids i)) = none) ∧
    (∀ i ∈ List.range' 2 (n - 1),
      (assembleFile env a fs).2.read
        (pathJoin stagingDir (ids i ++ ".json")) = none) ∧
    (assembleFile env a fs).2.read (pathJoin stagingDir (ids 1 ++ ".json")) =
      none ∧
    (usesOriginalFilename (mkAssembledMetadata a.metadata) = false →
      (assembleFile env a fs).2.read
        (getFullFilePath fname a.metadata.destinationPath ++ ".json") =
        some (.meta { id := ids 1,
                      size := some ((catList P (List.range' 1 n)).length : Int),
                      offset := some ((catList P (List.range' 1 n)).length : Int),
                      metadata := mkAssembledMetadata a.metadata,
                      creation_date := info1.creation_date })) := by
  have h1mem : (1 : Nat) ∈ List.range' 1 n := by rw [List.mem_range'_1]; omega
  have hfirst : (alookup a.parts (some 1)).getD "undefined" = ids 1 := by
    have h := hpart 1 h1mem
    rw [show (((1 : Nat) : Int)) = (1 : Int) from by norm_num] at h
    rw [h]; rfl
  set L := catList P (List.range' 1 n) with hL
  set assembledInfo : UploadInfo :=
    { id := ids 1, size := some (L.length : Int), offset := some (L.length : Int),
      metadata := mkAssembledMetadata a.metadata,
      creation_date := info1.creation_date } with hAI
  have hupd : ∀ g : FsState,
      g.read (pathJoin stagingDir (ids 1 ++ ".json")) = some (.meta info1) →
      updateAssembledMetadata g (ids 1) a.metadata =
        g.write (pathJoin stagingDir (ids 1 ++ ".json")) (.meta assembledInfo) := by
    intro g hg
    unfold updateAssembledMetadata
    rw [hg, hsize]
  have hupdRead : ∀ g : FsState,
      g.read (pathJoin stagingDir (ids 1 ++ ".json")) = some (.meta info1) →
      (updateAssembledMetadata g (ids 1) a.metadata).read
        (pathJoin stagingDir (ids 1 ++ ".json")) = some (.meta assembledInfo) := by
    intro g hg
    rw [hupd g hg]
    exact fsRead_write_self _ _ _
  -- run the append loop over indices 2 … n
  rcases assembleSeq_ok a.parts ids P n hpart hD1 hD2 hD3 (n - 1) 2 fs (P 1)
      (Nat.le_refl 2) (by omega) (hfsP 1 h1mem)
      (fun j hj2 hjn => hfsP j (by rw [List.mem_range'_1]; omega))
    with ⟨fs', hrun, hbase', hdel, hframe⟩
  have hcount : loopCount a.totalParts = n - 1 := by
    rw [htot]; unfold loopCount; simp
  have hbaseL : fs'.read (pathJoin stagingDir (ids 1)) = some (.bin L) := by
    rw [hbase', hL, catList_range'_split P n hn]
  have hJ1 : fs'.read (pathJoin stagingDir (ids 1 ++ ".json")) =
      some (.meta info1) := by
    rw [hframe _ ?_ (fun hc => hD2 1 h1mem 1 h1mem hc.symm), hfsJ]
    intro j hj2 hjn
    have hjmem : j ∈ List.range' 1 n := by rw [List.mem_range'_1]; omega
    exact ⟨fun hc => hD2 j hjmem 1 h1mem hc.symm,
      fun hc => hD3 1 h1mem j hjmem (by omega) hc⟩
  set fs2 := updateAssembledMetadata fs' (ids 1) a.metadata with hfs2
  have hfs2eq : fs2 = fs'.write (pathJoin stagingDir (ids 1 ++ ".json"))
      (.meta assembledInfo) := hupd fs' hJ1
  set dst := getFullFilePath fname a.metadata.destinationPath with hdstdef
  set dstJ := dst ++ ".json" with hdstJdef
  have hdstne : dst ≠ dstJ := string_ne_append_json dst
  have hfs2base : fs2.read (pathJoin stagingDir (ids 1)) = some (.bin L) := by
    rw [hfs2eq, fsRead_write_ne _ _ _ _ (fun hc => hD2 1 h1mem 1 h1mem hc.symm)]
    exact hbaseL
  set fs3 := (fs2.erase (pathJoin stagingDir (ids 1))).write dst (.bin L) with hfs3
  have hmv1 : moveFileWithFallback env fs2 (pathJoin stagingDir (ids 1)) dst =
      (true, fs3) :=
    moveFileWithFallback_ok env fs2 _ dst _ hfs2base (henv _ _)
  have hfs3J : fs3.read (pathJoin stagingDir (ids 1 ++ ".json")) =
      some (.meta assembledInfo) := by
    rw [hfs3, fsRead_write_ne _ _ _ _ (hdst 1 h1mem).2,
      fsRead_erase_ne _ _ _ (hD2 1 h1mem 1 h1mem), hfs2eq]
    exact fsRead_write_self _ _ _
  -- the metadata argument that processAssembledFile actually receives
  have hdp : (mkAssembledMetadata a.metadata).destinationPath =
      a.metadata.destinationPath := rfl
  have hAF : assembleFile env a fs =
      (.ok (), (moveFile env fs2 (pathJoin stagingDir (ids 1)) dst
        (pathJoin stagingDir (ids 1 ++ ".json"))
        (!usesOriginalFilename (mkAssembledMetadata a.metadata))).2) := by
    unfold assembleFile
    rw [hfirst, hcount, hrun]
    show (Except.ok (), processAssembledFile env
      (updateAssembledMetadata fs' (ids 1) a.metadata) (ids 1)
      (mkAssembledMetadata a.metadata)) = _
    unfold processAssembledFile
    rw [← hfs2, hfname fs2, hdp, ← hdstdef]
  have hmvFile : moveFile env fs2 (pathJoin stagingDir (ids 1)) dst
      (pathJoin stagingDir (ids 1 ++ ".json"))
      (!usesOriginalFilename (mkAssembledMetadata a.metadata)) =
      handleJsonFile env fs3 (pathJoin stagingDir (ids 1 ++ ".json")) dst
        (!usesOriginalFilename (mkAssembledMetadata a.metadata)) := by
    unfold moveFile
    rw [hmv1]
    rfl
  -- frame facts needed below
  have hfs2other : ∀ p : String,
      p ≠ pathJoin stagingDir (ids 1 ++ ".json") → fs2.read p = fs'.read p := by
    intro p hp
    rw [hfs2eq, fsRead_write_ne _ _ _ _ (fun hc => hp hc.symm)]
  have hfs3other : ∀ p : String, p ≠ dst → p ≠ pathJoin stagingDir (ids 1) →
      fs3.read p = fs2.read p := by
    intro p hp1 hp2
    rw [hfs3, fsRead_write_ne _ _ _ _ (fun hc => hp1 hc.symm),
      fsRead_erase_ne _ _ _ (fun hc => hp2 hc.symm)]
  obtain ⟨hfinalRead, hfinalSide, hfinalDstJ⟩ :
      (∀ p : String, p ≠ dstJ → p ≠ pathJoin stagingDir (ids 1 ++ ".json") →
        (assembleFile env a fs).2.read p = fs3.read p) ∧
      (assembleFile env a fs).2.read (pathJoin stagingDir (ids 1 ++ ".json")) =
        none ∧
      (usesOriginalFilename (mkAssembledMetadata a.metadata) = false →
        (assembleFile env a fs).2.read dstJ = some (.meta assembledInfo)) := by
    by_cases huse : usesOriginalFilename (mkAssembledMetadata a.metadata) = true
    · have hkeep : (!usesOriginalFilename (mkAssembledMetadata a.metadata)) =
          false := by rw [huse]; rfl
      have hjson : handleJsonFile env fs3
          (pathJoin stagingDir (ids 1 ++ ".json")) dst false =
          (true, fs3.erase (pathJoin stagingDir (ids 1 ++ ".json"))) := by
        unfold handleJsonFile
        rw [hfs3J]
        rfl
      have hfinal : (assembleFile env a fs).2 =
          fs3.erase (pathJoin stagingDir (ids 1 ++ ".json")) := by
        rw [hAF, hmvFile, hkeep, hjson]
      refine ⟨?_, ?_, ?_⟩
      · intro p _ hp2
        rw [hfinal, fsRead_erase_ne _ _ _ (fun hc => hp2 hc.symm)]
      · rw [hfinal]
        exact fsRead_erase_self _ _
      · intro hcontra
        rw [huse] at hcontra
        exact absurd hcontra (by simp)
    · have huse' : usesOriginalFilename (mkAssembledMetadata a.metadata) = false :=
        Bool.not_eq_true _ |>.mp huse
      have hkeep : (!usesOriginalFilename (mkAssembledMetadata a.metadata)) =
          true := by rw [huse']; rfl
      have hmv2 : moveFileWithFallback env fs3
          (pathJoin stagingDir (ids 1 ++ ".json")) dstJ =
          (true, (fs3.erase (pathJoin stagingDir (ids 1 ++ ".json"))).write dstJ
            (.meta assembledInfo)) :=
        moveFileWithFallback_ok env fs3 _ dstJ _ hfs3J (henv _ _)
      have hjson : handleJsonFile env fs3
          (pathJoin stagingDir (ids 1 ++ ".json")) dst true =
          (true, (fs3.erase (pathJoin stagingDir (ids 1 ++ ".json"))).write dstJ
            (.meta assembledInfo)) := by
        unfold handleJsonFile
        rw [hfs3J]
        rw [if_neg (by simp)]
        rw [if_pos rfl]
        rw [← hdstJdef]
        exact hmv2
      have hfinal : (assembleFile env a fs).2 =
          (fs3.erase (pathJoin stagingDir (ids 1 ++ ".json"))).write dstJ
            (.meta assembledInfo) := by
        rw [hAF, hmvFile, hkeep, hjson]
      refine ⟨?_, ?_, ?_⟩
      · intro p hp1 hp2
        rw [hfinal, fsRead_write_ne _ _ _ _ (fun hc => hp1 hc.symm),
          fsRead_erase_ne _ _ _ (fun hc => hp2 hc.symm)]
      · rw [hfinal, fsRead_write_ne _ _ _ _ (fun hc => (hdstJ 1 h1mem).2 hc)]
        exact fsRead_erase_self _ _
      · intro _
        rw [hfinal]
        exact fsRead_write_self _ _ _
  refine ⟨hupdRead, by rw [hAF], ?_, ?_, ?_, hfinalSide, hfinalDstJ⟩
  · rw [hfinalRead dst hdstne (hdst 1 h1mem).2, hfs3]
    exact fsRead_write_self _ _ _
  · intro i himem
    by_cases hi1 : i = 1
    · rw [hi1, hfinalRead _ (fun hc => (hdstJ 1 h1mem).1 hc.symm)
        (hD2 1 h1mem 1 h1mem), hfs3,
        fsRead_write_ne _ _ _ _ (fun hc => (hdst 1 h1mem).1 hc)]
      exact fsRead_erase_self _ _
    · have hi2 : 2 ≤ i := by
        rw [List.mem_range'_1] at himem; omega
      have hin : i ≤ n := by
        rw [List.mem_range'_1] at himem; omega
      rw [hfinalRead _ (fun hc => (hdstJ i himem).1 hc.symm) (hD2 i himem 1 h1mem),
        hfs3other _ (fun hc => (hdst i himem).1 hc.symm) (hD1 i himem 1 h1mem hi1),
        hfs2other _ (hD2 i himem 1 h1mem)]
      exact (hdel i hi2 hin).1
  · intro i himem
    have hi2 : 2 ≤ i := by
      rw [List.mem_range'_1] at himem; omega
    have hin : i ≤ n := by
      rw [List.mem_range'_1] at himem; omega
    have himem' : i ∈ List.range' 1 n := by rw [List.mem_range'_1]; omega
    rw [hfinalRead _ (fun hc => (hdstJ i himem').2 hc.symm)
        (hD3 i himem' 1 h1mem (by omega)),
      hfs3other _ (fun hc => (hdst i himem').2 hc.symm)
        (fun hc => hD2 1 h1mem i himem' hc.symm),
      hfs2other _ (hD3 i himem' 1 h1mem (by omega))]
    exact (hdel i hi2 hin).2

/-- A concrete staging state with a completed two-part group: part 1
"aa" carries [1], part 2 "bb" carries [2, 3], both with sidecars. -/
def c1fs : FsState :=
  ⟨[("./staging/aa", .bin [1]),
    ("./staging/aa.json", .meta { id := "aa", size := some 1, offset := some 1,
                                  metadata := partMeta "1",
                                  creation_date := "cd" }),
    ("./staging/bb", .bin [2, 3]),
    ("./staging/bb.json", .meta { id := "bb", size := some 2, offset := some 2,
                                  metadata := partMeta "2",
                                  creation_date := "cd" })]⟩

/-- The completed two-part assembly for `c1fs` (parts recorded
out of order, as after "bb" then "aa" completed). -/
def c1asm : MultipartAssembly :=
  { parts := [(some 1, "aa"), (some 2, "bb")], totalParts := some 2,
    metadata := partMeta "1" }

/-- C1 witness: assembling the concrete two-part group of `c1fs` puts
`[1] ++ [2, 3]` at the destination, removes every staged payload and
sidecar, and leaves the rewritten sidecar (size = offset = 3 =
originalFileSize) next to the destination file. -/
theorem C1_witness :
    (assembleFile envAllOk c1asm c1fs).1 = Except.ok () ∧
    (assembleFile envAllOk c1asm c1fs).2.read "./uploads/aa" =
      some (.bin [1, 2, 3]) ∧
    (assembleFile envAllOk c1asm c1fs).2.read "./staging/aa" = none ∧
    (assembleFile envAllOk c1asm c1fs).2.read "./staging/bb" = none ∧
    (assembleFile envAllOk c1asm c1fs).2.read "./staging/bb.json" = none ∧
    (assembleFile envAllOk c1asm c1fs).2.read "./staging/aa.json" = none ∧
    (assembleFile envAllOk c1asm c1fs).2.read "./uploads/aa.json" =
      some (.meta { id := "aa", size := some 3, offset := some 3,
                    metadata := mkAssembledMetadata (partMeta "1"),
                    creation_date := "cd" }) := by
  have h := C1_reassembly envAllOk c1asm c1fs
    (fun i => if i = 1 then "aa" else "bb")
    (fun i => if i = 1 then [1] else [2, 3]) 2
    { id := "aa", size := some 1, offset := some 1,
      metadata := partMeta "1", creation_date := "cd" }
    "aa"
    (by decide) (by decide) (by decide) (by decide) (by decide)
    (by decide) (by decide) (by decide)
    (fun s d => rfl) (fun g => rfl)
    (by decide) (by decide) (by decide)
  exact ⟨h.2.1, h.2.2.1, h.2.2.2.1 1 (by decide), h.2.2.2.1 2 (by decide),
    h.2.2.2.2.1 2 (by decide), h.2.2.2.2.2.1, h.2.2.2.2.2.2 (by decide)⟩

end NextTus
